import Mathlib

set_option maxHeartbeats 1000000

/-! Verification of the GunboundWC Avatar Editor core (dat_avatar_gui_v1.3.py):
byte codec, record layouts, size detection, parse, the save re-encoding phase,
and the two SQL exporters.

Modelling conventions:
* A byte buffer is a length together with a byte function; bytes are `Nat`
  (values written by the code are always < 256).
* Python `str` field values are modelled at the UTF-8 byte level: a field of
  string type holds the list of bytes of the UTF-8 encoding of the Python
  string, and the UTF-8 decode performed by `read_str` (with its latin-1 and
  hex fallbacks) is the identity at this level.  On the values the claims
  quantify over (valid UTF-8 without NUL) this is faithful, since UTF-8
  encode and decode are mutually inverse there.
* Fallible operations (struct.pack_into range errors, int() of None, the
  explicit IndexError raises) are `Except String`; a caught exception that the
  code converts into a `None` field is `Value.vNone`.
* The float expression of export_sql_item is modelled by exact rational
  emulation of IEEE binary64 round-to-nearest-even (valid for the magnitude
  range arising from u32 prices, far from overflow and subnormals). -/

/-- Field type tags appearing in the record maps: "u32", "i32", "u8", "str". -/
inductive FType where
  | u32
  | i32
  | u8
  | str
  deriving DecidableEq, Repr

/-- One entry of a record map: field name, byte offset relative to record
start, type tag, and fixed byte length (strings only; 0 otherwise). -/
structure FieldSpec where
  name : String
  off : Nat
  ty : FType
  flen : Nat
  deriving DecidableEq, Repr

/-- Number of buffer bytes a field of this spec occupies. -/
def FieldSpec.width (f : FieldSpec) : Nat :=
  match f.ty with
  | .u32 => 4
  | .i32 => 4
  | .u8 => 1
  | .str => f.flen

/-- NORMAL_SIZE = 644. -/
def NORMAL_SIZE : Nat := 644

/-- EXITEM_SIZE = 684. -/
def EXITEM_SIZE : Nat := 684

/-- NORMAL_MAP, in Python dict insertion order. -/
def NORMAL_MAP : List FieldSpec := [
  ⟨"avatar_code", 0, .u32, 0⟩,
  ⟨"image_number", 4, .u32, 0⟩,
  ⟨"name", 12, .str, 19⟩,
  ⟨"show_in_shop", 35, .u8, 0⟩,
  ⟨"sell_weekly", 37, .u8, 0⟩,
  ⟨"sell_monthly", 60, .u8, 0⟩,
  ⟨"sell_eternal", 84, .u8, 0⟩,
  ⟨"price_weekly_gold", 40, .u32, 0⟩,
  ⟨"price_weekly_cash", 44, .u32, 0⟩,
  ⟨"price_monthly_gold", 64, .u32, 0⟩,
  ⟨"price_monthly_cash", 68, .u32, 0⟩,
  ⟨"price_eternal_gold", 88, .u32, 0⟩,
  ⟨"price_eternal_cash", 92, .u32, 0⟩,
  ⟨"enable_sale_gold", 96, .u8, 0⟩,
  ⟨"enable_sale_cash", 97, .u8, 0⟩,
  ⟨"description", 132, .str, 63⟩,
  ⟨"crater_attack", 104, .i32, 0⟩,
  ⟨"attack", 108, .i32, 0⟩,
  ⟨"defense", 112, .i32, 0⟩,
  ⟨"energy", 116, .i32, 0⟩,
  ⟨"shield_regen", 120, .i32, 0⟩,
  ⟨"item_delay", 124, .i32, 0⟩,
  ⟨"popularity", 128, .i32, 0⟩]

/-- EXITEM_MAP, in Python dict insertion order. -/
def EXITEM_MAP : List FieldSpec := [
  ⟨"avatar_code", 0, .u32, 0⟩,
  ⟨"ex_number", 8, .u32, 0⟩,
  ⟨"name", 20, .str, 19⟩,
  ⟨"show_in_shop", 43, .u8, 0⟩,
  ⟨"sell_weekly", 45, .u8, 0⟩,
  ⟨"sell_monthly", 68, .u8, 0⟩,
  ⟨"sell_eternal", 92, .u8, 0⟩,
  ⟨"price_weekly_gold", 48, .u32, 0⟩,
  ⟨"price_weekly_cash", 52, .u32, 0⟩,
  ⟨"price_monthly_gold", 72, .u32, 0⟩,
  ⟨"price_monthly_cash", 76, .u32, 0⟩,
  ⟨"price_eternal_gold", 96, .u32, 0⟩,
  ⟨"price_eternal_cash", 100, .u32, 0⟩,
  ⟨"enable_sale_gold", 104, .u8, 0⟩,
  ⟨"enable_sale_cash", 105, .u8, 0⟩,
  ⟨"description", 132, .str, 63⟩]

/-- A decoded field value: Python int, Python str (as its UTF-8 bytes), or
Python None (a field set absent by a caught decode failure or a setdefault). -/
inductive Value where
  | vInt (n : Int)
  | vStr (bytes : List Nat)
  | vNone
  deriving DecidableEq, Repr

/-- The mutable bytearray: a length and the byte at each offset.  Offsets
at or beyond `len` are outside the buffer. -/
structure Buf where
  len : Nat
  byte : Nat → Nat

/-- Replace the byte range [off, off + bs.length) by `bs`;
mirrors Python bytearray slice assignment of an equally long bytes object,
which grows the buffer when the slice reaches past the current end
(callers always ensure `off < len`). -/
def setRange (b : Buf) (off : Nat) (bs : List Nat) : Buf :=
  { len := max b.len (off + bs.length)
    byte := fun i => if off ≤ i ∧ i < off + bs.length then bs.getD (i - off) 0 else b.byte i }

/-- read_u32_le: struct.unpack_from of a little-endian unsigned 32-bit int
(the caller has checked that offsets off..off+3 are inside the buffer). -/
def read_u32_le (b : Buf) (off : Nat) : Nat :=
  b.byte off + 256 * b.byte (off + 1) + 65536 * b.byte (off + 2) + 16777216 * b.byte (off + 3)

/-- Two's-complement reinterpretation performed by struct.unpack_from "<i". -/
def asI32 (u : Nat) : Int :=
  if u < 2 ^ 31 then (u : Int) else (u : Int) - 2 ^ 32

/-- The little-endian bytes that struct.pack_into "<I"/"<i" stores. -/
def u32Bytes (v : Nat) : List Nat :=
  [v % 256, v / 256 % 256, v / 65536 % 256, v / 16777216 % 256]

/-- write_u32_le: struct.pack_into "<I"; raises (struct.error) when the value
is out of the unsigned 32-bit range or fewer than 4 bytes remain. -/
def write_u32_le (b : Buf) (off : Nat) (v : Int) : Except String Buf :=
  if v < 0 ∨ (4294967296 : Int) ≤ v then .error "struct.error: argument out of range"
  else if off + 4 ≤ b.len then .ok (setRange b off (u32Bytes v.toNat))
  else .error "struct.error: pack_into requires a buffer of at least 4 bytes"

/-- write_i32_le: struct.pack_into "<i"; signed 32-bit range check, two's
complement encoding. -/
def write_i32_le (b : Buf) (off : Nat) (v : Int) : Except String Buf :=
  if v < -(2 ^ 31) ∨ (2 ^ 31 : Int) ≤ v then .error "struct.error: argument out of range"
  else if off + 4 ≤ b.len then .ok (setRange b off (u32Bytes (v % 4294967296).toNat))
  else .error "struct.error: pack_into requires a buffer of at least 4 bytes"

/-- read_u8: b[off] (the caller has checked off < len). -/
def read_u8 (b : Buf) (off : Nat) : Nat := b.byte off

/-- write_u8: barr[off] = int(val) & 0xFF. -/
def write_u8 (b : Buf) (off : Nat) (v : Int) : Buf :=
  setRange b off [(v % 256).toNat]

/-- The Python slice b[off:stop]: clipped at the buffer end, empty when the
start is past the end. -/
def pySlice (b : Buf) (off stop : Nat) : List Nat :=
  (List.range (min stop b.len - off)).map fun j => b.byte (off + j)

/-- read_str: take the slice b[off:off+length], cut at the first zero byte
(the split at the first NUL byte); the subsequent UTF-8 decode (with latin-1 and hex
fallbacks) is the identity in the byte-level model. -/
def read_str (b : Buf) (off length : Nat) : List Nat :=
  (pySlice b off (off + length)).takeWhile fun x => x != 0

/-- write_str: encode (identity at byte level), truncate to at most `length`
bytes, zero out the window, then store the bytes zero-padded to `length`.
The two slice assignments collapse to one range update. -/
def write_str (b : Buf) (off length : Nat) (bs : List Nat) : Buf :=
  setRange b off (bs.take length ++ List.replicate (length - (bs.take length).length) 0)

/-- Python int(val) as invoked by save: exact on int values, parses decimal
strings (sign and digits; the full Python syntax with whitespace and
underscores never arises here), raises TypeError on None. -/
def natOfDigits (bs : List Nat) : Option Nat :=
  if bs ≠ [] ∧ bs.all (fun c => decide (48 ≤ c ∧ c ≤ 57)) then
    some (bs.foldl (fun a c => 10 * a + (c - 48)) 0)
  else none

/-- Decimal integer reading for Python int() applied to a str. -/
def decimalOfBytes (bs : List Nat) : Option Int :=
  match bs with
  | 45 :: rest => (natOfDigits rest).map fun n => -(n : Int)
  | _ => (natOfDigits bs).map fun n => (n : Int)

/-- int(val) in the save loop. -/
def intOfValue : Value → Except String Int
  | .vInt n => .ok n
  | .vNone => .error "TypeError: int() argument must not be NoneType"
  | .vStr bs =>
    match decimalOfBytes bs with
    | some n => .ok n
    | none => .error "ValueError: invalid literal for int()"

/-- Decimal byte rendering of an integer (str(n) at byte level). -/
def natDecimalBytes (n : Nat) : List Nat :=
  ((Nat.digits 10 n).reverse).map (· + 48)

/-- str(val or "") in the save loop, at byte level: None and falsy values
give the empty string, ints render in decimal, strings pass through. -/
def strOfValue : Value → List Nat
  | .vStr bs => bs
  | .vNone => []
  | .vInt n =>
    if n = 0 then []
    else if n < 0 then 45 :: natDecimalBytes (-n).toNat
    else natDecimalBytes n.toNat

/-- Python `val != 0` as used for show_in_shop on save: None and strings are
unequal to 0, ints compare numerically. -/
def neZeroPy : Value → Bool
  | .vInt n => decide (n ≠ 0)
  | .vStr _ => true
  | .vNone => true

/-- One decoded record: index, variant name ("Normal" / "Ex-item"), start
offset in the buffer, and the field dictionary in insertion order. -/
structure Record where
  index : Nat
  type : String
  raw_off : Nat
  data : List (String × Value)
  deriving DecidableEq, Repr

/-- detect_record_size: payload = max(0, total - 4) (Nat subtraction);
Normal when divisible by 644, else Ex-item when divisible by 684, else
Normal fallback. -/
def detect_record_size (total : Nat) : Nat :=
  if (total - 4) % NORMAL_SIZE = 0 then NORMAL_SIZE
  else if (total - 4) % EXITEM_SIZE = 0 then EXITEM_SIZE
  else NORMAL_SIZE

/-- count = (total - header) // size with Python floor division on possibly
negative numerators, then clamped by range() which is empty for a negative
count. -/
def parseCount (total size : Nat) : Nat :=
  (((total : Int) - 4).fdiv (size : Int)).toNat

/-- Decode one field as _parse does: an explicit offset check raising
IndexError (caught, field set to None), then per-type reads where a
struct.unpack_from running past the end also yields a caught error. -/
def parseField (b : Buf) (oo : Nat) (f : FieldSpec) : Value :=
  if b.len ≤ oo then .vNone
  else match f.ty with
    | .u32 => if oo + 4 ≤ b.len then .vInt (read_u32_le b oo) else .vNone
    | .i32 => if oo + 4 ≤ b.len then .vInt (asI32 (read_u32_le b oo)) else .vNone
    | .u8 =>
      if f.name = "show_in_shop" then .vInt (if read_u8 b oo ≠ 0 then 1 else 0)
      else .vInt (read_u8 b oo)
    | .str => .vStr (read_str b oo f.flen)

/-- The field dictionary built by the per-field loop of _parse. -/
def parseRecordData (b : Buf) (base : Nat) (m : List FieldSpec) : List (String × Value) :=
  m.map fun f => (f.name, parseField b (base + f.off) f)

/-- dict.setdefault: append the key with the given value only when absent. -/
def setdefault (d : List (String × Value)) (k : String) (v : Value) : List (String × Value) :=
  if (d.lookup k).isSome then d else d ++ [(k, v)]

/-- The keys setdefault adds on Ex-item records, in source order. -/
def exitemDefaultKeys : List String :=
  ["image_number", "crater_attack", "attack", "defense", "energy",
   "shield_regen", "item_delay", "popularity"]

/-- The setdefault block at the end of the per-record parse loop. -/
def applyDefaults (rtype : String) (d : List (String × Value)) : List (String × Value) :=
  if rtype = "Normal" then setdefault d "ex_number" .vNone
  else exitemDefaultKeys.foldl (fun d k => setdefault d k .vNone) d

/-- The record map used for a variant name. -/
def recordMap (rtype : String) : List FieldSpec :=
  if rtype = "Normal" then NORMAL_MAP else EXITEM_MAP

/-- One iteration of the record loop of _parse. -/
def parseRecord (b : Buf) (i size : Nat) : Record :=
  let off := 4 + i * size
  let rtype := if size = NORMAL_SIZE then "Normal" else "Ex-item"
  { index := i
    type := rtype
    raw_off := off
    data := applyDefaults rtype (parseRecordData b off (recordMap rtype)) }

/-- DATModel._parse over a buffer. -/
def parse (b : Buf) : List Record :=
  let size := detect_record_size b.len
  (List.range (parseCount b.len size)).map fun i => parseRecord b i size

/-- One field re-encoding step of save: the explicit offset check raising
IndexError (fatal on save), then the per-type write. -/
def writeField (b : Buf) (oo : Nat) (f : FieldSpec) (v : Value) : Except String Buf :=
  if b.len ≤ oo then .error "IndexError: offset exceeds buffer length"
  else match f.ty with
    | .u32 =>
      match intOfValue v with
      | .error e => .error e
      | .ok n => write_u32_le b oo n
    | .i32 =>
      match intOfValue v with
      | .error e => .error e
      | .ok n => write_i32_le b oo n
    | .u8 =>
      if f.name = "show_in_shop" then .ok (write_u8 b oo (if neZeroPy v then 1 else 0))
      else
        match intOfValue v with
        | .error e => .error e
        | .ok n => .ok (write_u8 b oo n)
    | .str => .ok (write_str b oo f.flen (strOfValue v))

/-- The inner field loop of save for one record: fields not present in
rec.data are skipped, any write error aborts the whole save. -/
def reencodeFields (b : Buf) (base : Nat) (data : List (String × Value)) :
    List FieldSpec → Except String Buf
  | [] => .ok b
  | f :: fs =>
    match data.lookup f.name with
    | none => reencodeFields b base data fs
    | some v =>
      match writeField b (base + f.off) f v with
      | .error e => .error e
      | .ok b2 => reencodeFields b2 base data fs

/-- The re-encoding of one record at its stored raw offset. -/
def reencodeRecord (b : Buf) (r : Record) : Except String Buf :=
  reencodeFields b r.raw_off r.data (recordMap r.type)

/-- The record loop of save (the re-encoding phase, lines 217-243). -/
def reencodeRecords : List Record → Buf → Except String Buf
  | [], b => .ok b
  | r :: rs, b =>
    match reencodeRecord b r with
    | .error e => .error e
    | .ok b2 => reencodeRecords rs b2

/-- The content of the target file after save(path): the full buffer written
in one operation on success, `none` (file untouched) when the re-encoding
phase raised. -/
def save_file (recs : List Record) (b : Buf) : Option Buf :=
  (reencodeRecords recs b).toOption

/-- Serialize through save's re-encoding phase, then re-parse. -/
def roundTrip (recs : List Record) (b : Buf) : Except String (List Record) :=
  (reencodeRecords recs b).map parse

/-! ## Exact integer model of the binary64 float arithmetic of export_sql_item

A binary64 value is represented exactly as a dyadic pair (m, t) of
significand and exponent, standing for the rational m * 2^t.  Rounding a
fraction a/b to the 53-bit grid is exact integer arithmetic.  The model is
valid for magnitudes ≥ 2^(-10) (the values arising here are ≥ 0.006) and
far from binary64 overflow. -/

/-- Fuel-based ⌊log2⌋ on positive naturals (structural recursion so the
kernel can evaluate it; `log2p fuel n` is exact whenever n < 2^fuel). -/
def log2p (fuel n : Nat) : Nat :=
  match fuel with
  | 0 => 0
  | fuel + 1 => if n ≤ 1 then 0 else log2p fuel (n / 2) + 1

/-- Round the fraction a / b (b > 0) to the nearest integer, ties to even
(the IEEE default rounding). -/
def rneFrac (a b : Int) : Int :=
  let f := a.fdiv b
  let r := a - f * b
  if 2 * r < b then f
  else if b < 2 * r then f + 1
  else if f % 2 = 0 then f else f + 1

/-- ⌊log2 (|a| / b)⌋ for |a|/b ≥ 2^(-10), via the scaled integer
⌊1024 * |a| / b⌋. -/
def dlog2 (a : Int) (b : Nat) : Int :=
  (log2p 100 ((1024 * a.natAbs) / b) : Int) - 10

/-- Binary64 rounding of the fraction a / b (b > 0): the result is the
dyadic pair (m, t) with value m * 2^t, m obtained by rounding a/b onto the
grid 2^(⌊log2⌋ - 52) to nearest, ties to even. -/
def roundFD (a : Int) (b : Nat) : Int × Int :=
  if a = 0 then (0, 0)
  else
    let t := dlog2 a b - 52
    let m :=
      if 0 ≤ t then rneFrac a ((b : Int) * 2 ^ t.toNat)
      else rneFrac (a * 2 ^ (-t).toNat) (b : Int)
    (m, t)

/-- Binary64 rounding of the dyadic value n * 2^s (the product with the
exact float 60 needs one more rounding). -/
def roundFDDyadic (n : Int) (s : Int) : Int × Int :=
  if n = 0 then (0, 0)
  else
    let t := ((log2p 100 n.natAbs : Int) + s) - 52
    let d := s - t
    (if 0 ≤ d then n * 2 ^ d.toNat else rneFrac n (2 ^ (-d).toNat), t)

/-- math.floor of the dyadic value m * 2^t. -/
def floorDyadic (m t : Int) : Int :=
  if 0 ≤ t then m * 2 ^ t.toNat else m.fdiv (2 ^ (-t).toNat)

/-- math.floor((price_eternal_gold / 100) * 60) with Python float semantics:
the int converts exactly to binary64 (|p| < 2^53 in every reachable use),
the division p / 100 rounds once, the multiplication by the exact float 60
rounds once, math.floor is exact. -/
def pyPreco (p : Int) : Int :=
  let x1 := roundFD p 100
  let y := roundFDDyadic (60 * x1.1) x1.2
  floorDyadic y.1 y.2

/-! ## Report exporters -/

/-- dict.get(k, dflt): the stored value when the key is present (even when it
is None), else the default. -/
def dget (d : List (String × Value)) (k : String) (dflt : Value) : Value :=
  (d.lookup k).getD dflt

/-- rec.data.get("show_in_shop", 0) != 1 is the skip condition of both
exporters; this is the complement (emit condition). -/
def show_gate (r : Record) : Bool :=
  decide (dget r.data "show_in_shop" (.vInt 0) = .vInt 1)

/-- rec.data.get(k, 0) == 1 for the sale flags. -/
def saleFlag (r : Record) (k : String) : Bool :=
  decide (dget r.data k (.vInt 0) = .vInt 1)

/-- One gated price column of the menu export. -/
def menuPrice (r : Record) (enableKey sellKey priceKey : String) : Value :=
  if saleFlag r enableKey && saleFlag r sellKey then dget r.data priceKey (.vInt 0)
  else .vInt 0

/-- One INSERT line of the menu export, as structured columns (the SQL text
around the columns is a fixed format string). -/
structure MenuLine where
  no : Value
  item1 : Value
  gw : Value
  gm : Value
  ge : Value
  cw : Value
  cm : Value
  ce : Value
  deriving DecidableEq, Repr

/-- The columns computed for one record by export_sql_menu. -/
def menuLine (r : Record) : MenuLine :=
  { no := dget r.data "avatar_code" (.vInt 0)
    item1 := dget r.data "avatar_code" (.vInt 0)
    gw := menuPrice r "enable_sale_gold" "sell_weekly" "price_weekly_gold"
    gm := menuPrice r "enable_sale_gold" "sell_monthly" "price_monthly_gold"
    ge := menuPrice r "enable_sale_gold" "sell_eternal" "price_eternal_gold"
    cw := menuPrice r "enable_sale_cash" "sell_weekly" "price_weekly_cash"
    cm := menuPrice r "enable_sale_cash" "sell_monthly" "price_monthly_cash"
    ce := menuPrice r "enable_sale_cash" "sell_eternal" "price_eternal_cash" }

/-- export_sql_menu: one line per record passing the show_in_shop gate. -/
def export_sql_menu (recs : List Record) : List MenuLine :=
  recs.filterMap fun r => if show_gate r then some (menuLine r) else none

/-- One INSERT line of the item export: the avatar code and the refund
repeated into the four refund columns. -/
structure ItemLine where
  no : Value
  refund_c : Int
  refund_g : Int
  refund_t : Int
  refund_e : Int
  deriving DecidableEq, Repr

/-- preco for one record; a non-int price (None from a failed decode, or a
str) makes the float division raise TypeError, uncaught inside the export. -/
def itemRefund (r : Record) : Except String Int :=
  match dget r.data "price_eternal_gold" (.vInt 0) with
  | .vInt p => .ok (pyPreco p)
  | _ => .error "TypeError: unsupported operand type for division"

/-- export_sql_item: one line per record passing the show_in_shop gate, the
refund repeated into all four columns; a TypeError aborts the export. -/
def export_sql_item : List Record → Except String (List ItemLine)
  | [] => .ok []
  | r :: rs =>
    if show_gate r then
      match itemRefund r with
      | .error e => .error e
      | .ok pr =>
        match export_sql_item rs with
        | .error e => .error e
        | .ok ls => .ok ({ no := dget r.data "avatar_code" (.vInt 0),
                           refund_c := pr, refund_g := pr, refund_t := pr,
                           refund_e := pr } :: ls)
    else export_sql_item rs

/-! ## The core field-set operation (spec section 4.4)

The reference source has no standalone core `setField`; the field-set
behaviour lives in its GUI callers (App.apply_batch and
App.on_double_click_cell), which block Normal-only stat fields on Ex-item
records and validate values before storing them. -/

/-- The Normal-only stat fields blocked on Ex-item records (source lists
them verbatim in both callers). -/
def normalOnlyStats : List String :=
  ["crater_attack", "attack", "defense", "energy", "shield_regen",
   "item_delay", "popularity"]

/-- Errors of the field-set operation. -/
inductive SetFieldError where
  | domainError (msg : String)
  | validationError (msg : String)
  deriving DecidableEq, Repr

/-- Replace the value stored under a key of the field dictionary. -/
def dset (d : List (String × Value)) (k : String) (v : Value) : List (String × Value) :=
  d.map fun kv => if kv.1 = k then (kv.1, v) else kv

/-- Modelled from the spec: the core operation `setField(record, name, value)`
of section 4.4, which the source repository does not expose as a standalone
core function (its GUI callers App.apply_batch and App.on_double_click_cell
implement the checks inline).  Per the spec it rejects sets of Normal-only
stat fields on the Ex-item variant with a domain error before any mutation,
validates string byte length and boolean range, and otherwise stores the
typed value. -/
def setField (rec : Record) (name : String) (v : Value) : Except SetFieldError Record :=
  if rec.type = "Ex-item" ∧ name ∈ normalOnlyStats then
    .error (.domainError "field not available on the Ex-item variant")
  else if name = "name" then
    match v with
    | .vStr bs => if bs.length ≤ 19 then .ok { rec with data := dset rec.data name v }
                  else .error (.validationError "name exceeds 19 UTF-8 bytes")
    | _ => .error (.validationError "name must be a string")
  else if name = "description" then
    match v with
    | .vStr bs => if bs.length ≤ 63 then .ok { rec with data := dset rec.data name v }
                  else .error (.validationError "description exceeds 63 UTF-8 bytes")
    | _ => .error (.validationError "description must be a string")
  else if name = "show_in_shop" then
    match v with
    | .vInt n => if n = 0 ∨ n = 1 then .ok { rec with data := dset rec.data name v }
                 else .error (.validationError "show_in_shop must be 0 or 1")
    | _ => .error (.validationError "show_in_shop must be 0 or 1")
  else
    match v with
    | .vInt _ => .ok { rec with data := dset rec.data name v }
    | _ => .error (.validationError "value must be an integer")

/-- The record size of a variant name. -/
def recSize (rtype : String) : Nat :=
  if rtype = "Normal" then NORMAL_SIZE else EXITEM_SIZE

/-- Schema validity of a field value: u32 in unsigned 32-bit range, i32 in
signed 32-bit range, the show_in_shop boolean in 0..1, other single-byte
flags in 0..255, strings at most the declared width with no NUL byte. -/
def validValue (f : FieldSpec) (v : Value) : Bool :=
  match f.ty with
  | .u32 =>
    match v with
    | .vInt n => decide (0 ≤ n ∧ n < 4294967296)
    | _ => false
  | .i32 =>
    match v with
    | .vInt n => decide (-(2 ^ 31) ≤ n ∧ n < 2 ^ 31)
    | _ => false
  | .u8 =>
    match v with
    | .vInt n =>
      if f.name = "show_in_shop" then decide (n = 0 ∨ n = 1)
      else decide (0 ≤ n ∧ n < 256)
    | _ => false
  | .str =>
    match v with
    | .vStr bs => decide (bs.length ≤ f.flen ∧ ∀ x ∈ bs, x ≠ 0 ∧ x < 256)
    | _ => false

/-- The field dictionary of a freshly parsed (or freshly re-validated)
record whose schema field named k holds A k. -/
def canonData (rtype : String) (A : String → Value) : List (String × Value) :=
  applyDefaults rtype ((recordMap rtype).map fun f => (f.name, A f.name))

/-- A record in the exact shape parse produces, with field assignment A. -/
def canonRecord (rtype : String) (A : Nat → String → Value) (i : Nat) : Record :=
  { index := i
    type := rtype
    raw_off := 4 + i * recSize rtype
    data := canonData rtype (A i) }

/-- A homogeneous record list in the exact shape parse produces. -/
def canonRecords (rtype : String) (n : Nat) (A : Nat → String → Value) : List Record :=
  (List.range n).map (canonRecord rtype A)

/-! ## Lemmas: byte ranges -/

/-- Zero/empty schema-valid assignment used for concrete instances. -/
def zeroAssign : Nat → String → Value := fun _ k =>
  if k = "name" ∨ k = "description" then .vStr [] else .vInt 0

/-- A concrete schema-valid assignment exercising several field types. -/
def oneAssign : Nat → String → Value := fun _ k =>
  if k = "name" then .vStr [72, 105]
  else if k = "description" then .vStr [79, 107]
  else if k = "show_in_shop" then .vInt 1
  else .vInt 7

/-- A 648-byte single-Normal-record buffer whose sell_weekly raw byte
(record offset 37, absolute offset 41) is 5. -/
def c3buf : Buf := ⟨648, fun i => if i = 41 then 5 else 0⟩

/-- The key/None pairs the setdefault block appends for each variant. -/
def defaultPairs (rtype : String) : List (String × Value) :=
  if rtype = "Normal" then [("ex_number", Value.vNone)]
  else exitemDefaultKeys.map fun k => (k, Value.vNone)

/-- The uniform key set every parsed record of a variant exposes. -/
def uniformKeys (rtype : String) : List String :=
  (recordMap rtype).map FieldSpec.name ++ (defaultPairs rtype).map Prod.fst

/-- A concrete shown record: gold weekly enabled at price 500, cash
disabled. -/
def c4rec : Record :=
  ⟨0, "Normal", 4,
   [("avatar_code", .vInt 9), ("show_in_shop", .vInt 1), ("enable_sale_gold", .vInt 1),
    ("enable_sale_cash", .vInt 0), ("sell_weekly", .vInt 1), ("sell_monthly", .vInt 0),
    ("sell_eternal", .vInt 0), ("price_weekly_gold", .vInt 500),
    ("price_weekly_cash", .vInt 300)]⟩

/-- A record carrying an absent (None) show_in_shop flag. -/
def c10rec : Record := ⟨1, "Normal", 648, [("show_in_shop", Value.vNone), ("avatar_code", .vInt 3)]⟩

/-- A buffer with nonzero prior content, for exercising the clearing
behaviour of write_str. -/
def c9buf : Buf := ⟨648, fun _ => 7⟩

/-- Decidable equality on Except results, for concrete evaluations. -/
instance exceptDecEq {α β : Type} [DecidableEq α] [DecidableEq β] :
    DecidableEq (Except α β) := fun a b =>
  match a, b with
  | .ok x, .ok y =>
    if h : x = y then isTrue (by rw [h])
    else isFalse (by intro hc; exact h (Except.ok.inj hc))
  | .error x, .error y =>
    if h : x = y then isTrue (by rw [h])
    else isFalse (by intro hc; exact h (Except.error.inj hc))
  | .ok _, .error _ => isFalse (by intro hc; exact Except.noConfusion hc)
  | .error _, .ok _ => isFalse (by intro hc; exact Except.noConfusion hc)

/-- A shown Normal record whose eternal gold price is 205. -/
def c5rec : Record :=
  ⟨0, "Normal", 4,
   [("avatar_code", .vInt 1), ("show_in_shop", .vInt 1), ("price_eternal_gold", .vInt 205)]⟩

theorem setRange_len (b : Buf) (off : Nat) (bs : List Nat) :
    (setRange b off bs).len = max b.len (off + bs.length) := rfl

theorem setRange_len_of_le (b : Buf) (off : Nat) (bs : List Nat)
    (h : off + bs.length ≤ b.len) : (setRange b off bs).len = b.len := by
  simp only [setRange_len]
  omega

theorem setRange_byte_outside (b : Buf) (off : Nat) (bs : List Nat) (i : Nat)
    (h : i < off ∨ off + bs.length ≤ i) :
    (setRange b off bs).byte i = b.byte i := by
  simp only [setRange]
  rw [if_neg]
  omega

theorem setRange_byte_inside (b : Buf) (off : Nat) (bs : List Nat) (i : Nat)
    (h1 : off ≤ i) (h2 : i < off + bs.length) :
    (setRange b off bs).byte i = bs.getD (i - off) 0 := by
  simp only [setRange]
  rw [if_pos ⟨h1, h2⟩]

theorem rangeMap_getD (l : List Nat) :
    (List.range l.length).map (fun j => l.getD j 0) = l := by
  apply List.ext_getElem
  · simp
  · intro i h1 h2
    simp only [List.getElem_map, List.getElem_range]
    rw [List.getD_eq_getElem]

/-- Reading an in-range window right after writing it returns the written
bytes. -/
theorem pySlice_setRange (b : Buf) (off : Nat) (bs : List Nat)
    (h : off + bs.length ≤ b.len) :
    pySlice (setRange b off bs) off (off + bs.length) = bs := by
  unfold pySlice
  rw [setRange_len_of_le b off bs h]
  have hmin : min (off + bs.length) b.len = off + bs.length := by omega
  rw [hmin]
  have harg : off + bs.length - off = bs.length := by omega
  rw [harg]
  have : ∀ j < bs.length, (setRange b off bs).byte (off + j) = bs.getD j 0 := by
    intro j hj
    rw [setRange_byte_inside b off bs (off + j) (by omega) (by omega)]
    congr 1
    omega
  calc (List.range bs.length).map (fun j => (setRange b off bs).byte (off + j))
      = (List.range bs.length).map (fun j => bs.getD j 0) := by
        apply List.map_congr_left
        intro j hj
        exact this j (List.mem_range.mp hj)
    _ = bs := rangeMap_getD bs

theorem u32Bytes_length (v : Nat) : (u32Bytes v).length = 4 := rfl

theorem read_u32_setRange (b : Buf) (off : Nat) (v : Nat)
    (hv : v < 4294967296) (h : off + 4 ≤ b.len) :
    read_u32_le (setRange b off (u32Bytes v)) off = v := by
  have h0 := setRange_byte_inside b off (u32Bytes v) off (by omega) (by simp [u32Bytes_length])
  have h1 := setRange_byte_inside b off (u32Bytes v) (off + 1) (by omega) (by simp [u32Bytes_length])
  have h2 := setRange_byte_inside b off (u32Bytes v) (off + 2) (by omega) (by simp [u32Bytes_length])
  have h3 := setRange_byte_inside b off (u32Bytes v) (off + 3) (by omega) (by simp [u32Bytes_length])
  unfold read_u32_le
  rw [h0, h1, h2, h3]
  have e0 : off - off = 0 := by omega
  have e1 : off + 1 - off = 1 := by omega
  have e2 : off + 2 - off = 2 := by omega
  have e3 : off + 3 - off = 3 := by omega
  rw [e0, e1, e2, e3]
  show v % 256 + 256 * (v / 256 % 256) + 65536 * (v / 65536 % 256) + 16777216 * (v / 16777216 % 256) = v
  omega

theorem takeWhile_append_zeros (bs : List Nat) (m : Nat)
    (h : ∀ x ∈ bs, x ≠ 0) :
    (bs ++ List.replicate m 0).takeWhile (fun x => x != 0) = bs := by
  induction bs with
  | nil =>
    simp only [List.nil_append]
    cases m with
    | zero => rfl
    | succ m => simp [List.replicate_succ, List.takeWhile_cons]
  | cons x xs ih =>
    have hx : x ≠ 0 := h x (List.mem_cons_self x xs)
    simp only [List.cons_append, List.takeWhile_cons]
    have : (x != 0) = true := by simpa using hx
    rw [this]
    simp only [if_true]
    rw [ih (fun y hy => h y (List.mem_cons_of_mem x hy))]

/-- parseField only looks at the buffer length and the bytes of the field's
own window. -/
theorem parseField_congr (b b' : Buf) (oo : Nat) (f : FieldSpec)
    (hlen : b'.len = b.len)
    (hbytes : ∀ i, oo ≤ i → i < oo + f.width → b'.byte i = b.byte i) :
    parseField b' oo f = parseField b oo f := by
  have hw32 : f.ty = FType.u32 ∨ f.ty = FType.i32 → f.width = 4 := by
    intro h
    unfold FieldSpec.width
    rcases h with h | h <;> rw [h]
  have hw8 : f.ty = FType.u8 → f.width = 1 := by
    intro h
    unfold FieldSpec.width
    rw [h]
  have hws : f.ty = FType.str → f.width = f.flen := by
    intro h
    unfold FieldSpec.width
    rw [h]
  unfold parseField
  rw [hlen]
  cases hf : f.ty with
  | u32 =>
    have w : f.width = 4 := hw32 (Or.inl hf)
    dsimp only
    split_ifs with h1 h2
    · rfl
    · unfold read_u32_le
      rw [hbytes oo (by omega) (by omega), hbytes (oo + 1) (by omega) (by omega),
          hbytes (oo + 2) (by omega) (by omega), hbytes (oo + 3) (by omega) (by omega)]
    · rfl
  | i32 =>
    have w : f.width = 4 := hw32 (Or.inr hf)
    dsimp only
    split_ifs with h1 h2
    · rfl
    · unfold read_u32_le
      rw [hbytes oo (by omega) (by omega), hbytes (oo + 1) (by omega) (by omega),
          hbytes (oo + 2) (by omega) (by omega), hbytes (oo + 3) (by omega) (by omega)]
    · rfl
  | u8 =>
    have w : f.width = 1 := hw8 hf
    dsimp only [read_u8]
    have hb : b'.byte oo = b.byte oo := hbytes oo (by omega) (by omega)
    rw [hb]
  | str =>
    have w : f.width = f.flen := hws hf
    dsimp only
    split_ifs with h1
    · rfl
    · congr 1
      unfold read_str pySlice
      rw [hlen]
      have hmaps : (List.range (min (oo + f.flen) b.len - oo)).map (fun j => b'.byte (oo + j))
          = (List.range (min (oo + f.flen) b.len - oo)).map (fun j => b.byte (oo + j)) := by
        apply List.map_congr_left
        intro j hj
        have hj2 := List.mem_range.mp hj
        exact hbytes (oo + j) (by omega) (by omega)
      rw [hmaps]

/-- Reading the byte just written by a singleton range update. -/
theorem byte_setRange_single (b : Buf) (oo : Nat) (x : Nat) :
    (setRange b oo [x]).byte oo = x := by
  rw [setRange_byte_inside b oo [x] oo (Nat.le_refl oo) (by simp)]
  simp

theorem setRange_single_len (b : Buf) (oo : Nat) (x : Nat) (h : oo + 1 ≤ b.len) :
    (setRange b oo [x]).len = b.len := by
  apply setRange_len_of_le
  simpa using h

/-- Field re-encoding of a schema-valid value at an in-range offset
succeeds, preserves the buffer length, touches only the field's window, and
the field then decodes back to exactly the value that was stored. -/
theorem writeField_ok (b : Buf) (oo : Nat) (f : FieldSpec) (v : Value)
    (hv : validValue f v = true) (hpos : 0 < f.width) (hw : oo + f.width ≤ b.len) :
    ∃ b', writeField b oo f v = .ok b' ∧ b'.len = b.len ∧
      (∀ i, i < oo ∨ oo + f.width ≤ i → b'.byte i = b.byte i) ∧
      parseField b' oo f = v := by
  cases hf : f.ty with
  | u32 =>
    have w : f.width = 4 := by unfold FieldSpec.width; rw [hf]
    rw [w] at hw
    cases v with
    | vNone => unfold validValue at hv; rw [hf] at hv; simp at hv
    | vStr bs => unfold validValue at hv; rw [hf] at hv; simp at hv
    | vInt n =>
      unfold validValue at hv
      rw [hf] at hv
      dsimp only at hv
      have hn : 0 ≤ n ∧ n < 4294967296 := by simpa using hv
      have hlen4 : (u32Bytes n.toNat).length = 4 := u32Bytes_length n.toNat
      refine ⟨setRange b oo (u32Bytes n.toNat), ?_, ?_, ?_, ?_⟩
      · unfold writeField
        rw [if_neg (by omega), hf]
        dsimp only [intOfValue]
        unfold write_u32_le
        rw [if_neg (by omega), if_pos (by omega)]
      · exact setRange_len_of_le b oo _ (by rw [hlen4]; omega)
      · intro i hi
        exact setRange_byte_outside b oo _ i (by rw [hlen4]; omega)
      · have hlen' : (setRange b oo (u32Bytes n.toNat)).len = b.len :=
          setRange_len_of_le b oo _ (by rw [hlen4]; omega)
        unfold parseField
        rw [hlen', if_neg (by omega), hf]
        dsimp only
        rw [if_pos (by omega)]
        rw [read_u32_setRange b oo n.toNat (by omega) (by omega)]
        congr 1
        omega
  | i32 =>
    have w : f.width = 4 := by unfold FieldSpec.width; rw [hf]
    rw [w] at hw
    cases v with
    | vNone => unfold validValue at hv; rw [hf] at hv; simp at hv
    | vStr bs => unfold validValue at hv; rw [hf] at hv; simp at hv
    | vInt n =>
      unfold validValue at hv
      rw [hf] at hv
      dsimp only at hv
      have hn : -(2 ^ 31) ≤ n ∧ n < 2 ^ 31 := by simpa using hv
      have hm : 0 ≤ n % 4294967296 ∧ n % 4294967296 < 4294967296 := by omega
      have hlen4 : (u32Bytes (n % 4294967296).toNat).length = 4 := u32Bytes_length _
      refine ⟨setRange b oo (u32Bytes (n % 4294967296).toNat), ?_, ?_, ?_, ?_⟩
      · unfold writeField
        rw [if_neg (by omega), hf]
        dsimp only [intOfValue]
        unfold write_i32_le
        rw [if_neg (by omega), if_pos (by omega)]
      · exact setRange_len_of_le b oo _ (by rw [hlen4]; omega)
      · intro i hi
        exact setRange_byte_outside b oo _ i (by rw [hlen4]; omega)
      · have hlen' : (setRange b oo (u32Bytes (n % 4294967296).toNat)).len = b.len :=
          setRange_len_of_le b oo _ (by rw [hlen4]; omega)
        unfold parseField
        rw [hlen', if_neg (by omega), hf]
        dsimp only
        rw [if_pos (by omega)]
        rw [read_u32_setRange b oo (n % 4294967296).toNat (by omega) (by omega)]
        unfold asI32
        congr 1
        rcases Nat.lt_or_ge (n % 4294967296).toNat (2 ^ 31) with hcase | hcase
        · rw [if_pos hcase]
          omega
        · rw [if_neg (by omega)]
          omega
  | u8 =>
    have w : f.width = 1 := by unfold FieldSpec.width; rw [hf]
    rw [w] at hw
    cases v with
    | vNone => unfold validValue at hv; rw [hf] at hv; simp at hv
    | vStr bs => unfold validValue at hv; rw [hf] at hv; simp at hv
    | vInt n =>
      unfold validValue at hv
      rw [hf] at hv
      dsimp only at hv
      by_cases hname : f.name = "show_in_shop"
      · rw [if_pos hname] at hv
        have hn : n = 0 ∨ n = 1 := by simpa using hv
        refine ⟨write_u8 b oo (if neZeroPy (.vInt n) then 1 else 0), ?_, ?_, ?_, ?_⟩
        · unfold writeField
          rw [if_neg (by omega), hf]
          dsimp only
          rw [if_pos hname]
        · unfold write_u8
          exact setRange_single_len b oo _ hw
        · intro i hi
          unfold write_u8
          rw [w] at hi
          exact setRange_byte_outside b oo _ i (by simpa using hi)
        · have hlen' : (write_u8 b oo (if neZeroPy (.vInt n) then 1 else 0)).len = b.len := by
            unfold write_u8
            exact setRange_single_len b oo _ hw
          unfold parseField
          rw [hlen', if_neg (by omega), hf]
          dsimp only [read_u8]
          rw [if_pos hname]
          unfold write_u8
          simp only [byte_setRange_single]
          rcases hn with hn | hn <;> subst hn <;> simp [neZeroPy]
      · rw [if_neg hname] at hv
        have hn : 0 ≤ n ∧ n < 256 := by simpa using hv
        refine ⟨write_u8 b oo n, ?_, ?_, ?_, ?_⟩
        · unfold writeField
          rw [if_neg (by omega), hf]
          dsimp only
          rw [if_neg hname]
          dsimp only [intOfValue]
        · unfold write_u8
          exact setRange_single_len b oo _ hw
        · intro i hi
          unfold write_u8
          rw [w] at hi
          exact setRange_byte_outside b oo _ i (by simpa using hi)
        · have hlen' : (write_u8 b oo n).len = b.len := by
            unfold write_u8
            exact setRange_single_len b oo _ hw
          unfold parseField
          rw [hlen', if_neg (by omega), hf]
          dsimp only [read_u8]
          rw [if_neg hname]
          unfold write_u8
          simp only [byte_setRange_single]
          congr 1
          omega
  | str =>
    have w : f.width = f.flen := by unfold FieldSpec.width; rw [hf]
    rw [w] at hw
    cases v with
    | vNone => unfold validValue at hv; rw [hf] at hv; simp at hv
    | vInt n => unfold validValue at hv; rw [hf] at hv; simp at hv
    | vStr bs =>
      unfold validValue at hv
      rw [hf] at hv
      dsimp only at hv
      rw [w] at hpos
      have hbs : bs.length ≤ f.flen ∧ ∀ x ∈ bs, x ≠ 0 ∧ x < 256 := by simpa using hv
      have htake : bs.take f.flen = bs := List.take_of_length_le hbs.1
      have hcontent : (bs.take f.flen ++ List.replicate (f.flen - (bs.take f.flen).length) 0).length = f.flen := by
        rw [htake]
        simp
        omega
      refine ⟨write_str b oo f.flen bs, ?_, ?_, ?_, ?_⟩
      · unfold writeField
        rw [if_neg (by omega), hf]
        dsimp only [strOfValue]
      · unfold write_str
        exact setRange_len_of_le b oo _ (by rw [hcontent]; omega)
      · intro i hi
        unfold write_str
        exact setRange_byte_outside b oo _ i (by rw [hcontent]; omega)
      · have hlen' : (write_str b oo f.flen bs).len = b.len := by
          unfold write_str
          exact setRange_len_of_le b oo _ (by rw [hcontent]; omega)
        unfold parseField
        rw [hlen', if_neg (by omega), hf]
        dsimp only
        congr 1
        unfold write_str read_str
        have hsl := pySlice_setRange b oo (bs.take f.flen ++ List.replicate (f.flen - (bs.take f.flen).length) 0) (by rw [hcontent]; omega)
        rw [hcontent] at hsl
        rw [hsl, htake]
        exact takeWhile_append_zeros bs _ (fun x hx => (hbs.2 x hx).1)

/-! ## Lemmas: dictionary lookups -/

theorem lookup_append_left (d e : List (String × Value)) (k : String)
    (h : (d.lookup k).isSome) : (d ++ e).lookup k = d.lookup k := by
  induction d with
  | nil => simp at h
  | cons kv d ih =>
    rcases kv with ⟨k1, v1⟩
    simp only [List.cons_append, List.lookup]
    cases hk : (k == k1) with
    | true => rfl
    | false =>
      apply ih
      simpa [List.lookup, hk] using h

theorem lookup_append_right (d e : List (String × Value)) (k : String)
    (h : d.lookup k = none) : (d ++ e).lookup k = e.lookup k := by
  induction d with
  | nil => rfl
  | cons kv d ih =>
    rcases kv with ⟨k1, v1⟩
    simp only [List.cons_append, List.lookup]
    cases hk : (k == k1) with
    | true => simp [List.lookup, hk] at h
    | false =>
      apply ih
      simpa [List.lookup, hk] using h

theorem lookup_map_name (m : List FieldSpec) (val : FieldSpec → Value) (f : FieldSpec)
    (hf : f ∈ m) (hnd : (m.map FieldSpec.name).Nodup) :
    (m.map fun g => (g.name, val g)).lookup f.name = some (val f) := by
  induction m with
  | nil => simp at hf
  | cons g gs ih =>
    simp only [List.map_cons, List.lookup]
    rcases List.mem_cons.mp hf with hfg | hfs
    · subst hfg
      simp
    · have hnd' : (∀ x ∈ gs, ¬x.name = g.name) ∧ (gs.map FieldSpec.name).Nodup := by
        simpa using hnd
      have hne : f.name ≠ g.name := hnd'.1 f hfs
      have hbeq : (f.name == g.name) = false := by
        simpa using hne
      rw [hbeq]
      exact ih hfs hnd'.2

theorem lookup_map_name_none (m : List FieldSpec) (val : FieldSpec → Value) (k : String)
    (h : ∀ f ∈ m, f.name ≠ k) :
    (m.map fun g => (g.name, val g)).lookup k = none := by
  induction m with
  | nil => rfl
  | cons g gs ih =>
    simp only [List.map_cons, List.lookup]
    have hne : k ≠ g.name := fun hEq => (h g (List.mem_cons_self g gs)) hEq.symm
    have hbeq : (k == g.name) = false := by simpa using hne
    rw [hbeq]
    exact ih fun f hf => h f (List.mem_cons_of_mem g hf)

theorem lookup_setdefault_isSome (d : List (String × Value)) (k k' : String) (v : Value)
    (h : (d.lookup k).isSome) : (setdefault d k' v).lookup k = d.lookup k := by
  unfold setdefault
  split_ifs with hs
  · rfl
  · exact lookup_append_left d [(k', v)] k h

theorem lookup_foldl_setdefault_isSome (ks : List String) (d : List (String × Value))
    (k : String) (h : (d.lookup k).isSome) :
    (ks.foldl (fun d k2 => setdefault d k2 .vNone) d).lookup k = d.lookup k := by
  induction ks generalizing d with
  | nil => rfl
  | cons k1 ks ih =>
    simp only [List.foldl_cons]
    rw [ih (setdefault d k1 .vNone) (by rw [lookup_setdefault_isSome d k k1 .vNone h]; exact h)]
    exact lookup_setdefault_isSome d k k1 .vNone h

theorem lookup_applyDefaults_isSome (rtype : String) (d : List (String × Value)) (k : String)
    (h : (d.lookup k).isSome) : (applyDefaults rtype d).lookup k = d.lookup k := by
  unfold applyDefaults
  split_ifs with hr
  · exact lookup_setdefault_isSome d k "ex_number" .vNone h
  · exact lookup_foldl_setdefault_isSome exitemDefaultKeys d k h

theorem recordMap_names_nodup (rtype : String) :
    ((recordMap rtype).map FieldSpec.name).Nodup := by
  unfold recordMap
  split_ifs <;> decide

theorem lookup_canonData (rtype : String) (A : String → Value) (f : FieldSpec)
    (hf : f ∈ recordMap rtype) :
    (canonData rtype A).lookup f.name = some (A f.name) := by
  unfold canonData
  have base := lookup_map_name (recordMap rtype) (fun g => A g.name) f hf (recordMap_names_nodup rtype)
  rw [lookup_applyDefaults_isSome rtype _ f.name (by rw [base]; rfl)]
  exact base

/-! ## Lemmas: schema facts (decidable checks over the two constant maps) -/

theorem recordMap_bounds (rtype : String) :
    ∀ f ∈ recordMap rtype, 0 < f.width ∧ f.off + f.width ≤ recSize rtype := by
  unfold recordMap recSize
  split_ifs <;> decide

theorem recordMap_disjoint (rtype : String) :
    (recordMap rtype).Pairwise
      (fun f g => f.off + f.width ≤ g.off ∨ g.off + g.width ≤ f.off) := by
  unfold recordMap
  split_ifs <;> decide

/-! ## The field loop of save -/

/-- Re-encoding every field of one record out of a canonical field
dictionary: succeeds, preserves the length, writes only inside the fields'
windows, and every field of the record then decodes back to its value. -/
theorem reencodeFields_ok (base : Nat) (A : String → Value) (data : List (String × Value)) :
    ∀ (m : List FieldSpec) (b : Buf),
    (∀ f ∈ m, data.lookup f.name = some (A f.name)) →
    (∀ f ∈ m, validValue f (A f.name) = true) →
    (∀ f ∈ m, 0 < f.width) →
    (∀ f ∈ m, base + f.off + f.width ≤ b.len) →
    m.Pairwise (fun f g => f.off + f.width ≤ g.off ∨ g.off + g.width ≤ f.off) →
    ∃ b', reencodeFields b base data m = .ok b' ∧ b'.len = b.len ∧
      (∀ i, (∀ f ∈ m, i < base + f.off ∨ base + f.off + f.width ≤ i) → b'.byte i = b.byte i) ∧
      (∀ f ∈ m, parseField b' (base + f.off) f = A f.name) := by
  intro m
  induction m with
  | nil =>
    intro b _ _ _ _ _
    exact ⟨b, rfl, rfl, fun i _ => rfl, fun f hf => absurd hf (List.not_mem_nil f)⟩
  | cons f fs ih =>
    intro b hlookup hvalid hpos hin hdisj
    have hdisj' := List.pairwise_cons.mp hdisj
    obtain ⟨b1, hok1, hlen1, hframe1, hread1⟩ :=
      writeField_ok b (base + f.off) f (A f.name)
        (hvalid f (List.mem_cons_self f fs))
        (hpos f (List.mem_cons_self f fs))
        (by have := hin f (List.mem_cons_self f fs); omega)
    obtain ⟨b2, hok2, hlen2, hframe2, hread2⟩ :=
      ih b1
        (fun g hg => hlookup g (List.mem_cons_of_mem f hg))
        (fun g hg => hvalid g (List.mem_cons_of_mem f hg))
        (fun g hg => hpos g (List.mem_cons_of_mem f hg))
        (fun g hg => by rw [hlen1]; exact hin g (List.mem_cons_of_mem f hg))
        hdisj'.2
    refine ⟨b2, ?_, ?_, ?_, ?_⟩
    · unfold reencodeFields
      rw [hlookup f (List.mem_cons_self f fs)]
      dsimp only
      rw [hok1]
      dsimp only
      exact hok2
    · rw [hlen2, hlen1]
    · intro i hi
      rw [hframe2 i (fun g hg => hi g (List.mem_cons_of_mem f hg)),
          hframe1 i (by
            rcases hi f (List.mem_cons_self f fs) with h | h
            · exact Or.inl (by omega)
            · exact Or.inr h)]
    · intro g hg
      rcases List.mem_cons.mp hg with hgf | hgs
      · subst hgf
        have hcongr : parseField b2 (base + g.off) g = parseField b1 (base + g.off) g := by
          apply parseField_congr
          · rw [hlen2]
          · intro i hi1 hi2
            apply hframe2
            intro g2 hg2
            rcases hdisj'.1 g2 hg2 with hd | hd
            · left
              omega
            · right
              omega
        rw [hcongr]
        exact hread1
      · exact hread2 g hgs

/-! ## The record loop of save over canonical records -/

theorem reencode_canon_aux (rtype : String) (A : Nat → String → Value) (B : Nat) :
    ∀ (cnt k : Nat) (b : Buf), b.len = B →
    4 + (k + cnt) * recSize rtype ≤ B →
    (∀ i, k ≤ i → i < k + cnt → ∀ f ∈ recordMap rtype, validValue f (A i f.name) = true) →
    ∃ b', reencodeRecords ((List.range' k cnt).map (canonRecord rtype A)) b = .ok b' ∧
      b'.len = B ∧
      (∀ j, j < 4 + k * recSize rtype → b'.byte j = b.byte j) ∧
      (∀ i, k ≤ i → i < k + cnt → ∀ f ∈ recordMap rtype,
        parseField b' (4 + i * recSize rtype + f.off) f = A i f.name) := by
  intro cnt
  induction cnt with
  | zero =>
    intro k b hb _ _
    exact ⟨b, rfl, hb, fun j _ => rfl, fun i h1 h2 _ _ => absurd h2 (by omega)⟩
  | succ cnt ih =>
    intro k b hb hbound hvalid
    have hexp : (k + (cnt + 1)) * recSize rtype
        = k * recSize rtype + cnt * recSize rtype + recSize rtype := by ring
    have hexp1 : (k + 1) * recSize rtype = k * recSize rtype + recSize rtype := by ring
    rw [hexp] at hbound
    rw [List.range'_succ, List.map_cons]
    obtain ⟨b1, hok1, hlen1, hframe1, hread1⟩ :=
      reencodeFields_ok (4 + k * recSize rtype) (A k) (canonData rtype (A k)) (recordMap rtype) b
        (fun f hf => lookup_canonData rtype (A k) f hf)
        (fun f hf => hvalid k (Nat.le_refl k) (by omega) f hf)
        (fun f hf => (recordMap_bounds rtype f hf).1)
        (fun f hf => by
          have hfw := (recordMap_bounds rtype f hf).2
          rw [hb]
          omega)
        (recordMap_disjoint rtype)
    obtain ⟨b2, hok2, hlen2, hframe2, hread2⟩ :=
      ih (k + 1) b1 (by rw [hlen1, hb])
        (by
          have : (k + 1 + cnt) * recSize rtype
              = k * recSize rtype + cnt * recSize rtype + recSize rtype := by ring
          omega)
        (fun i h1 h2 f hf => hvalid i (by omega) (by omega) f hf)
    have hok1' : reencodeRecord b (canonRecord rtype A k) = Except.ok b1 := hok1
    refine ⟨b2, ?_, hlen2, ?_, ?_⟩
    · unfold reencodeRecords
      rw [hok1']
      dsimp only
      exact hok2
    · intro j hj
      have hstep : b2.byte j = b1.byte j := by
        apply hframe2
        omega
      rw [hstep]
      apply hframe1
      intro f hf
      left
      omega
    · intro i h1 h2 f hf
      rcases Nat.eq_or_lt_of_le h1 with hik | hik
    -- i = k: the later records leave record k's windows untouched
      · subst hik
        have hfw := (recordMap_bounds rtype f hf).2
        have hcongr : parseField b2 (4 + k * recSize rtype + f.off) f
            = parseField b1 (4 + k * recSize rtype + f.off) f := by
          apply parseField_congr
          · rw [hlen2, hlen1, hb]
          · intro j hj1 hj2
            apply hframe2
            omega
        rw [hcongr]
        exact hread1 f hf
      · exact hread2 i (by omega) (by omega) f hf

/-! ## Size detection and record count -/

theorem parseCount_eq (total size : Nat) (hs : 0 < size) :
    parseCount total size = (total - 4) / size := by
  unfold parseCount
  rcases Nat.lt_or_ge total 4 with h | h
  · have hneg : ((total : Int) - 4) < 0 := by omega
    have hszpos : (0 : Int) < (size : Int) := by exact_mod_cast hs
    have hfd : ((total : Int) - 4).fdiv (size : Int) < 0 := Int.fdiv_neg' hneg hszpos
    rw [Int.toNat_of_nonpos (Int.le_of_lt hfd)]
    have h0 : total - 4 = 0 := by omega
    rw [h0, Nat.zero_div]
  · have hcast : ((total : Int) - 4) = ((total - 4 : Nat) : Int) := by omega
    rw [hcast, ← Int.ofNat_fdiv]
    exact Int.toNat_ofNat _

theorem detect_normal_exact (n : Nat) :
    detect_record_size (4 + n * NORMAL_SIZE) = NORMAL_SIZE := by
  unfold detect_record_size
  have h : 4 + n * NORMAL_SIZE - 4 = n * NORMAL_SIZE := by omega
  rw [h, if_pos (Nat.mul_mod_left n NORMAL_SIZE)]

theorem detect_exitem_exact (n : Nat) (h : (EXITEM_SIZE * n) % NORMAL_SIZE ≠ 0) :
    detect_record_size (4 + n * EXITEM_SIZE) = EXITEM_SIZE := by
  unfold detect_record_size
  have h4 : 4 + n * EXITEM_SIZE - 4 = n * EXITEM_SIZE := by omega
  rw [h4]
  rw [if_neg (by rw [Nat.mul_comm]; exact h), if_pos (Nat.mul_mod_left n EXITEM_SIZE)]

theorem parseCount_exact (n size : Nat) (hs : 0 < size) :
    parseCount (4 + n * size) size = n := by
  rw [parseCount_eq _ _ hs]
  have h : 4 + n * size - 4 = n * size := by omega
  rw [h, Nat.mul_div_cancel n hs]

/-- C1 (amended): round trip through save's re-encoding phase and re-parse
restores every canonical record field-for-field, for any homogeneous list of
records with schema-valid field values — unconditionally for the Normal
variant, and for the ExItem variant whenever the payload 684*n is not
divisible by 644 (otherwise size detection re-reads the buffer as Normal). -/
theorem c1_roundtrip_amended (rtype : String) (n : Nat) (A : Nat → String → Value) (b : Buf)
    (hr : rtype = "Normal" ∨ rtype = "Ex-item")
    (hlen : b.len = 4 + n * recSize rtype)
    (hvalid : ∀ i < n, ∀ f ∈ recordMap rtype, validValue f (A i f.name) = true)
    (hdet : rtype = "Ex-item" → (EXITEM_SIZE * n) % NORMAL_SIZE ≠ 0) :
    roundTrip (canonRecords rtype n A) b = .ok (canonRecords rtype n A) := by
  obtain ⟨b', hok, hlen', hframe, hread⟩ :=
    reencode_canon_aux rtype A b.len n 0 b rfl
      (by rw [hlen, Nat.zero_add])
      (fun i h1 h2 f hf => hvalid i (by omega) f hf)
  have hrange : canonRecords rtype n A = (List.range' 0 n).map (canonRecord rtype A) := by
    unfold canonRecords
    rw [List.range_eq_range']
  unfold roundTrip
  rw [hrange, hok]
  dsimp only [Except.map]
  congr 1
  -- parse b' recomputes the same size, count and records
  have hsize : detect_record_size b'.len = recSize rtype := by
    rw [hlen', hlen]
    rcases hr with hr | hr
    · rw [hr]
      exact detect_normal_exact n
    · rw [hr]
      unfold recSize
      rw [if_neg (by decide)]
      exact detect_exitem_exact n (hdet hr)
  have hcount : parseCount b'.len (recSize rtype) = n := by
    rw [hlen', hlen]
    apply parseCount_exact
    rcases hr with hr | hr <;> rw [hr] <;> decide
  unfold parse
  dsimp only
  rw [hsize, hcount, ← hrange]
  unfold canonRecords
  apply List.map_congr_left
  intro i hi
  have hin : i < n := List.mem_range.mp hi
  have hrt : (if recSize rtype = NORMAL_SIZE then "Normal" else "Ex-item") = rtype := by
    rcases hr with hr | hr <;> rw [hr] <;> decide
  unfold parseRecord canonRecord
  rw [hrt]
  dsimp only
  congr 1
  unfold canonData
  congr 1
  unfold parseRecordData
  apply List.map_congr_left
  intro f hf
  rw [hread i (Nat.zero_le i) (by omega) f hf]

/-- C1 (counterexample): the claim as stated fails for the ExItem variant —
161 Ex-item records re-encode into a buffer whose payload 161*684 is
divisible by 644, so re-parsing detects the Normal layout and yields 171
records that do not equal the originals. -/
theorem c1_counterexample :
    roundTrip (canonRecords "Ex-item" 161 zeroAssign) ⟨4 + 161 * 684, fun _ => 0⟩
      ≠ .ok (canonRecords "Ex-item" 161 zeroAssign) := by
  obtain ⟨b', hok, hlen', hframe, hread⟩ :=
    reencode_canon_aux "Ex-item" zeroAssign (4 + 161 * 684) 161 0 ⟨4 + 161 * 684, fun _ => 0⟩ rfl
      (by decide)
      (fun i h1 h2 f hf =>
        (by decide : ∀ g ∈ recordMap "Ex-item", validValue g (zeroAssign 0 g.name) = true) f hf)
  have hrange : canonRecords "Ex-item" 161 zeroAssign
      = (List.range' 0 161).map (canonRecord "Ex-item" zeroAssign) := by
    unfold canonRecords
    rw [List.range_eq_range']
  intro hEq
  rw [roundTrip, hrange, hok] at hEq
  dsimp only [Except.map] at hEq
  have hlists : parse b' = (List.range' 0 161).map (canonRecord "Ex-item" zeroAssign) := by
    exact Except.ok.inj hEq
  have hL : (parse b').length = 171 := by
    unfold parse
    rw [hlen']
    simp only [List.length_map, List.length_range]
    decide
  rw [hlists] at hL
  simp only [List.length_map, List.length_range'] at hL
  exact absurd hL (by decide)

/-- C1 (witness): the amended round-trip theorem applied to one concrete
Normal record over a concrete zeroed buffer. -/
theorem c1_witness :
    roundTrip (canonRecords "Normal" 1 oneAssign) ⟨648, fun _ => 0⟩
      = .ok (canonRecords "Normal" 1 oneAssign) :=
  c1_roundtrip_amended "Normal" 1 oneAssign ⟨648, fun _ => 0⟩ (Or.inl rfl) (by decide)
    (by decide) (fun h => absurd h (by decide))

theorem detect_record_size_pos (T : Nat) : 0 < detect_record_size T := by
  unfold detect_record_size
  split_ifs <;> decide

/-- C2: size detection uses payload = max(0, T - 4) and prefers Normal (644)
when the payload divides evenly, else ExItem (684), else Normal as fallback;
a payload divisible by both resolves to Normal; and the number of records
parsed equals payload divided by the chosen size with integer division. -/
theorem c2_size_detection (T : Nat) (b : Buf) (hb : b.len = T) :
    (detect_record_size T
      = if (T - 4) % 644 = 0 then 644 else if (T - 4) % 684 = 0 then 684 else 644)
    ∧ ((T - 4) % 644 = 0 ∧ (T - 4) % 684 = 0 → detect_record_size T = 644)
    ∧ (parse b).length = (T - 4) / detect_record_size T := by
  refine ⟨rfl, ?_, ?_⟩
  · intro h
    unfold detect_record_size NORMAL_SIZE EXITEM_SIZE
    rw [if_pos h.1]
  · subst hb
    unfold parse
    dsimp only
    rw [List.length_map, List.length_range]
    exact parseCount_eq _ _ (detect_record_size_pos _)

/-- C2 (witness): the detection statement at the concrete length of two
Normal records over a zeroed buffer. -/
theorem c2_witness :
    (detect_record_size 1292
      = if (1292 - 4) % 644 = 0 then 644 else if (1292 - 4) % 684 = 0 then 684 else 644)
    ∧ ((1292 - 4) % 644 = 0 ∧ (1292 - 4) % 684 = 0 → detect_record_size 1292 = 644)
    ∧ (parse ⟨1292, fun _ => 0⟩).length = (1292 - 4) / detect_record_size 1292 :=
  c2_size_detection 1292 ⟨1292, fun _ => 0⟩ rfl

/-- C3 (counterexample): the claim fails — a sell/enable flag is not
normalized on read: raw byte 5 in sell_weekly decodes to 5, which is
neither 0 nor 1. -/
theorem c3_counterexample :
    ((parse c3buf).headD ⟨0, "", 0, []⟩).data.lookup "sell_weekly" = some (.vInt 5)
    ∧ Value.vInt 5 ≠ .vInt 0 ∧ Value.vInt 5 ≠ .vInt 1 := by
  decide

/-- C3 (amended): only show_in_shop is boolean-coerced: on read it decodes
to exactly 0 or 1 (any nonzero raw byte becomes 1) and on save it is written
as exactly 0 or 1; every other single-byte flag decodes to its raw byte
unchanged and is written back as int(val) mod 256. -/
theorem c3_show_in_shop_only (b : Buf) (oo : Nat) (f : FieldSpec) (v : Value) (n : Int)
    (hty : f.ty = .u8) (hoo : oo < b.len) :
    (f.name = "show_in_shop" →
      (parseField b oo f = .vInt 0 ∨ parseField b oo f = .vInt 1)
      ∧ (b.byte oo ≠ 0 → parseField b oo f = .vInt 1)
      ∧ (b.byte oo = 0 → parseField b oo f = .vInt 0))
    ∧ (f.name = "show_in_shop" →
      writeField b oo f v = .ok (write_u8 b oo (if neZeroPy v then 1 else 0))
      ∧ ((write_u8 b oo (if neZeroPy v then 1 else 0)).byte oo = 0
          ∨ (write_u8 b oo (if neZeroPy v then 1 else 0)).byte oo = 1))
    ∧ (f.name ≠ "show_in_shop" → parseField b oo f = .vInt (b.byte oo))
    ∧ (f.name ≠ "show_in_shop" →
      writeField b oo f (.vInt n) = .ok (write_u8 b oo n)
      ∧ (write_u8 b oo n).byte oo = (n % 256).toNat) := by
  refine ⟨?_, ?_, ?_, ?_⟩
  · intro hname
    unfold parseField
    rw [if_neg (by omega), hty]
    dsimp only [read_u8]
    rw [if_pos hname]
    refine ⟨?_, ?_, ?_⟩
    · by_cases hz : b.byte oo = 0
      · left
        rw [if_neg (by simpa using hz)]
      · right
        rw [if_pos hz]
    · intro hz
      rw [if_pos hz]
    · intro hz
      rw [if_neg (by simpa using hz)]
  · intro hname
    constructor
    · unfold writeField
      rw [if_neg (by omega), hty]
      dsimp only
      rw [if_pos hname]
    · unfold write_u8
      rw [byte_setRange_single]
      rcases hb : neZeroPy v with hb | hb
      · left
        decide
      · right
        decide
  · intro hname
    unfold parseField
    rw [if_neg (by omega), hty]
    dsimp only [read_u8]
    rw [if_neg hname]
  · intro hname
    constructor
    · unfold writeField
      rw [if_neg (by omega), hty]
      dsimp only
      rw [if_neg hname]
      rfl
    · unfold write_u8
      rw [byte_setRange_single]

/-- C3 (witness): the amended statement applied at the concrete buffer with
raw sell_weekly byte 5 (field offsets taken from NORMAL_MAP). -/
theorem c3_witness :
    (FieldSpec.name ⟨"sell_weekly", 37, .u8, 0⟩ = "show_in_shop" →
      (parseField c3buf 41 ⟨"sell_weekly", 37, .u8, 0⟩ = .vInt 0
        ∨ parseField c3buf 41 ⟨"sell_weekly", 37, .u8, 0⟩ = .vInt 1)
      ∧ (c3buf.byte 41 ≠ 0 → parseField c3buf 41 ⟨"sell_weekly", 37, .u8, 0⟩ = .vInt 1)
      ∧ (c3buf.byte 41 = 0 → parseField c3buf 41 ⟨"sell_weekly", 37, .u8, 0⟩ = .vInt 0))
    ∧ (FieldSpec.name ⟨"sell_weekly", 37, .u8, 0⟩ = "show_in_shop" →
      writeField c3buf 41 ⟨"sell_weekly", 37, .u8, 0⟩ (.vInt 5)
          = .ok (write_u8 c3buf 41 (if neZeroPy (.vInt 5) then 1 else 0))
      ∧ ((write_u8 c3buf 41 (if neZeroPy (.vInt 5) then 1 else 0)).byte 41 = 0
          ∨ (write_u8 c3buf 41 (if neZeroPy (.vInt 5) then 1 else 0)).byte 41 = 1))
    ∧ (FieldSpec.name ⟨"sell_weekly", 37, .u8, 0⟩ ≠ "show_in_shop" →
      parseField c3buf 41 ⟨"sell_weekly", 37, .u8, 0⟩ = .vInt (c3buf.byte 41))
    ∧ (FieldSpec.name ⟨"sell_weekly", 37, .u8, 0⟩ ≠ "show_in_shop" →
      writeField c3buf 41 ⟨"sell_weekly", 37, .u8, 0⟩ (.vInt 5) = .ok (write_u8 c3buf 41 5)
      ∧ (write_u8 c3buf 41 5).byte 41 = ((5 : Int) % 256).toNat) :=
  c3_show_in_shop_only c3buf 41 ⟨"sell_weekly", 37, .u8, 0⟩ (.vInt 5) 5 rfl (by decide)

/-! ## Uniform field sets (parse shape) -/

theorem setdefault_of_none (d : List (String × Value)) (k : String) (v : Value)
    (h : d.lookup k = none) : setdefault d k v = d ++ [(k, v)] := by
  unfold setdefault
  rw [h]
  rfl

theorem foldl_setdefault_eq_append (ks : List String) :
    ∀ d : List (String × Value), (∀ k ∈ ks, d.lookup k = none) → ks.Nodup →
    ks.foldl (fun d k => setdefault d k .vNone) d = d ++ ks.map (fun k => (k, Value.vNone)) := by
  induction ks with
  | nil =>
    intro d _ _
    simp
  | cons k1 ks ih =>
    intro d hfresh hnd
    have hnd' : k1 ∉ ks ∧ ks.Nodup := List.nodup_cons.mp hnd
    simp only [List.foldl_cons, List.map_cons]
    rw [setdefault_of_none d k1 .vNone (hfresh k1 (List.mem_cons_self k1 ks))]
    have hfresh' : ∀ k ∈ ks, (d ++ [(k1, Value.vNone)]).lookup k = none := by
      intro k hk
      rw [lookup_append_right d _ k (hfresh k (List.mem_cons_of_mem k1 hk))]
      have hne : (k == k1) = false := by
        simp only [beq_eq_false_iff_ne, ne_eq]
        intro hEq
        exact hnd'.1 (hEq ▸ hk)
      simp [List.lookup, hne]
    rw [ih (d ++ [(k1, Value.vNone)]) hfresh' hnd'.2]
    simp

theorem applyDefaults_eq_append (rtype : String) (d : List (String × Value))
    (hN : rtype = "Normal" → d.lookup "ex_number" = none)
    (hE : ¬rtype = "Normal" → ∀ k ∈ exitemDefaultKeys, d.lookup k = none) :
    applyDefaults rtype d = d ++ defaultPairs rtype := by
  unfold applyDefaults defaultPairs
  split_ifs with h
  · exact setdefault_of_none d _ _ (hN h)
  · exact foldl_setdefault_eq_append exitemDefaultKeys d (hE h) (by decide)

theorem parseRecord_data_eq (b : Buf) (base : Nat) (rtype : String)
    (hr : rtype = "Normal" ∨ rtype = "Ex-item") :
    applyDefaults rtype (parseRecordData b base (recordMap rtype))
      = parseRecordData b base (recordMap rtype) ++ defaultPairs rtype := by
  apply applyDefaults_eq_append
  · intro h
    subst h
    unfold parseRecordData recordMap
    rw [if_pos rfl]
    exact lookup_map_name_none NORMAL_MAP _ "ex_number" (by decide)
  · intro h
    rcases hr with hr | hr
    · exact absurd hr h
    · subst hr
      intro k hk
      unfold parseRecordData recordMap
      rw [if_neg (by decide)]
      exact lookup_map_name_none EXITEM_MAP _ k
        (fun f hf => (by decide : ∀ k2 ∈ exitemDefaultKeys, ∀ g ∈ EXITEM_MAP, g.name ≠ k2) k hk f hf)

/-- The shape of one parsed record's field dictionary: uniform key set, each
schema field decoded independently at its own offset, and every
other-variant field explicitly present mapped to None. -/
theorem recordData_shape (b : Buf) (base : Nat) (rtype : String)
    (hr : rtype = "Normal" ∨ rtype = "Ex-item") :
    (applyDefaults rtype (parseRecordData b base (recordMap rtype))).map Prod.fst = uniformKeys rtype
    ∧ (∀ f ∈ recordMap rtype,
        (applyDefaults rtype (parseRecordData b base (recordMap rtype))).lookup f.name
          = some (parseField b (base + f.off) f))
    ∧ (∀ kv ∈ defaultPairs rtype,
        (applyDefaults rtype (parseRecordData b base (recordMap rtype))).lookup kv.1
          = some Value.vNone) := by
  have happ := parseRecord_data_eq b base rtype hr
  refine ⟨?_, ?_, ?_⟩
  · rw [happ]
    unfold uniformKeys
    rw [List.map_append]
    congr 1
    unfold parseRecordData
    rw [List.map_map]
    rfl
  · intro f hf
    rw [happ]
    have hl : (parseRecordData b base (recordMap rtype)).lookup f.name
        = some (parseField b (base + f.off) f) := by
      unfold parseRecordData
      exact lookup_map_name (recordMap rtype) _ f hf (recordMap_names_nodup rtype)
    rw [lookup_append_left _ _ _ (by rw [hl]; rfl)]
    exact hl
  · intro kv hkv
    rw [happ]
    have hfresh : (parseRecordData b base (recordMap rtype)).lookup kv.1 = none := by
      unfold parseRecordData
      apply lookup_map_name_none
      rcases hr with hr | hr <;> subst hr
      · exact fun f hf =>
          (by decide : ∀ kv2 ∈ defaultPairs "Normal", ∀ g ∈ recordMap "Normal", g.name ≠ kv2.1)
            kv hkv f hf
      · exact fun f hf =>
          (by decide : ∀ kv2 ∈ defaultPairs "Ex-item", ∀ g ∈ recordMap "Ex-item", g.name ≠ kv2.1)
            kv hkv f hf
    rw [lookup_append_right _ _ _ hfresh]
    rcases hr with hr | hr <;> subst hr
    · exact (by decide : ∀ kv2 ∈ defaultPairs "Normal", (defaultPairs "Normal").lookup kv2.1
        = some Value.vNone) kv hkv
    · exact (by decide : ∀ kv2 ∈ defaultPairs "Ex-item", (defaultPairs "Ex-item").lookup kv2.1
        = some Value.vNone) kv hkv

theorem detect_cases (T : Nat) :
    detect_record_size T = NORMAL_SIZE ∨ detect_record_size T = EXITEM_SIZE := by
  unfold detect_record_size
  split_ifs
  · left
    rfl
  · right
    rfl
  · left
    rfl

theorem parse_getD (b : Buf) (i : Nat) (d : Record) (h : i < (parse b).length) :
    (parse b).getD i d = parseRecord b i (detect_record_size b.len) := by
  unfold parse at h ⊢
  dsimp only at h ⊢
  rw [List.getD_eq_getElem _ _ h]
  simp

/-- C7: parse never aborts (it always yields payload/size records); a field
whose offset lies beyond the buffer decodes to None (absent) while every
other field of every record is still decoded independently at its own
offset; and every parsed record exposes the uniform key set of its variant,
with other-variant fields present as None rather than missing. -/
theorem c7_parse_tolerance (b : Buf) :
    ((parse b).length = (b.len - 4) / detect_record_size b.len)
    ∧ (∀ oo f, b.len ≤ oo → parseField b oo f = Value.vNone)
    ∧ (∀ i, i < (parse b).length →
        ((parse b).getD i ⟨0, "", 0, []⟩).data.map Prod.fst
            = uniformKeys ((parse b).getD i ⟨0, "", 0, []⟩).type
        ∧ (∀ f ∈ recordMap ((parse b).getD i ⟨0, "", 0, []⟩).type,
            ((parse b).getD i ⟨0, "", 0, []⟩).data.lookup f.name
              = some (parseField b (((parse b).getD i ⟨0, "", 0, []⟩).raw_off + f.off) f))
        ∧ (∀ kv ∈ defaultPairs ((parse b).getD i ⟨0, "", 0, []⟩).type,
            ((parse b).getD i ⟨0, "", 0, []⟩).data.lookup kv.1 = some Value.vNone)) := by
  refine ⟨?_, ?_, ?_⟩
  · unfold parse
    dsimp only
    rw [List.length_map, List.length_range]
    exact parseCount_eq _ _ (detect_record_size_pos _)
  · intro oo f hoo
    unfold parseField
    rw [if_pos hoo]
  · intro i h
    rw [parse_getD b i _ h]
    rcases detect_cases b.len with hd | hd <;> rw [hd] <;> unfold parseRecord <;> dsimp only
    · rw [if_pos rfl]
      exact recordData_shape b _ "Normal" (Or.inl rfl)
    · rw [if_neg (by decide)]
      exact recordData_shape b _ "Ex-item" (Or.inr rfl)

/-- C7 (witness): the tolerance statement applied to a concrete 652-byte
buffer (one Normal record plus 4 trailing bytes). -/
theorem c7_witness :
    ((parse ⟨652, fun _ => 0⟩).length = (652 - 4) / detect_record_size 652)
    ∧ (parseField ⟨652, fun _ => 0⟩ 700 ⟨"avatar_code", 0, .u32, 0⟩ = Value.vNone)
    ∧ (((parse ⟨652, fun _ => 0⟩).getD 0 ⟨0, "", 0, []⟩).data.map Prod.fst
          = uniformKeys ((parse ⟨652, fun _ => 0⟩).getD 0 ⟨0, "", 0, []⟩).type) := by
  refine ⟨(c7_parse_tolerance ⟨652, fun _ => 0⟩).1, ?_, ?_⟩
  · exact (c7_parse_tolerance ⟨652, fun _ => 0⟩).2.1 700 _ (by decide)
  · exact ((c7_parse_tolerance ⟨652, fun _ => 0⟩).2.2 0 (by decide)).1

/-! ## Export gating -/

theorem menuPrice_eq (r : Record) (ek sk pk : String) :
    (dget r.data ek (.vInt 0) = .vInt 1 ∧ dget r.data sk (.vInt 0) = .vInt 1 →
      menuPrice r ek sk pk = dget r.data pk (.vInt 0))
    ∧ (¬(dget r.data ek (.vInt 0) = .vInt 1 ∧ dget r.data sk (.vInt 0) = .vInt 1) →
      menuPrice r ek sk pk = .vInt 0) := by
  unfold menuPrice saleFlag
  constructor
  · intro h
    rw [if_pos (by simp [h.1, h.2])]
  · intro h
    rw [if_neg (by simpa using h)]

theorem export_menu_filter (recs : List Record) :
    export_sql_menu recs = (recs.filter show_gate).map menuLine := by
  unfold export_sql_menu
  induction recs with
  | nil => rfl
  | cons r rs ih =>
    by_cases h : show_gate r <;>
      simp [List.filterMap_cons, List.filter_cons, h, ih]

/-- C4: the menu report emits exactly one line per record whose
show_in_shop equals 1 and no line otherwise; on each line every gold price
column carries the stored price when enable_sale_gold == 1 and the matching
sell flag == 1 and 0 otherwise, and the cash columns follow the same rule
gated on enable_sale_cash. -/
theorem c4_menu_export_gating (recs : List Record) :
    export_sql_menu recs = (recs.filter show_gate).map menuLine
    ∧ (∀ r : Record, show_gate r = true ↔ dget r.data "show_in_shop" (.vInt 0) = .vInt 1)
    ∧ (∀ r : Record,
        ((dget r.data "enable_sale_gold" (.vInt 0) = .vInt 1
            ∧ dget r.data "sell_weekly" (.vInt 0) = .vInt 1 →
          (menuLine r).gw = dget r.data "price_weekly_gold" (.vInt 0))
        ∧ (¬(dget r.data "enable_sale_gold" (.vInt 0) = .vInt 1
            ∧ dget r.data "sell_weekly" (.vInt 0) = .vInt 1) → (menuLine r).gw = .vInt 0))
        ∧ ((dget r.data "enable_sale_gold" (.vInt 0) = .vInt 1
            ∧ dget r.data "sell_monthly" (.vInt 0) = .vInt 1 →
          (menuLine r).gm = dget r.data "price_monthly_gold" (.vInt 0))
        ∧ (¬(dget r.data "enable_sale_gold" (.vInt 0) = .vInt 1
            ∧ dget r.data "sell_monthly" (.vInt 0) = .vInt 1) → (menuLine r).gm = .vInt 0))
        ∧ ((dget r.data "enable_sale_gold" (.vInt 0) = .vInt 1
            ∧ dget r.data "sell_eternal" (.vInt 0) = .vInt 1 →
          (menuLine r).ge = dget r.data "price_eternal_gold" (.vInt 0))
        ∧ (¬(dget r.data "enable_sale_gold" (.vInt 0) = .vInt 1
            ∧ dget r.data "sell_eternal" (.vInt 0) = .vInt 1) → (menuLine r).ge = .vInt 0))
        ∧ ((dget r.data "enable_sale_cash" (.vInt 0) = .vInt 1
            ∧ dget r.data "sell_weekly" (.vInt 0) = .vInt 1 →
          (menuLine r).cw = dget r.data "price_weekly_cash" (.vInt 0))
        ∧ (¬(dget r.data "enable_sale_cash" (.vInt 0) = .vInt 1
            ∧ dget r.data "sell_weekly" (.vInt 0) = .vInt 1) → (menuLine r).cw = .vInt 0))
        ∧ ((dget r.data "enable_sale_cash" (.vInt 0) = .vInt 1
            ∧ dget r.data "sell_monthly" (.vInt 0) = .vInt 1 →
          (menuLine r).cm = dget r.data "price_monthly_cash" (.vInt 0))
        ∧ (¬(dget r.data "enable_sale_cash" (.vInt 0) = .vInt 1
            ∧ dget r.data "sell_monthly" (.vInt 0) = .vInt 1) → (menuLine r).cm = .vInt 0))
        ∧ ((dget r.data "enable_sale_cash" (.vInt 0) = .vInt 1
            ∧ dget r.data "sell_eternal" (.vInt 0) = .vInt 1 →
          (menuLine r).ce = dget r.data "price_eternal_cash" (.vInt 0))
        ∧ (¬(dget r.data "enable_sale_cash" (.vInt 0) = .vInt 1
            ∧ dget r.data "sell_eternal" (.vInt 0) = .vInt 1) → (menuLine r).ce = .vInt 0))) := by
  refine ⟨export_menu_filter recs, ?_, ?_⟩
  · intro r
    unfold show_gate
    exact decide_eq_true_iff
  · intro r
    exact ⟨menuPrice_eq r _ _ _, menuPrice_eq r _ _ _, menuPrice_eq r _ _ _,
           menuPrice_eq r _ _ _, menuPrice_eq r _ _ _, menuPrice_eq r _ _ _⟩

/-- C4 (witness): the gating statement applied at a concrete record — the
enabled gold weekly column carries 500, the disabled cash weekly column 0. -/
theorem c4_witness :
    export_sql_menu [c4rec] = ([c4rec].filter show_gate).map menuLine
    ∧ (menuLine c4rec).gw = dget c4rec.data "price_weekly_gold" (.vInt 0)
    ∧ (menuLine c4rec).cw = .vInt 0 := by
  refine ⟨(c4_menu_export_gating [c4rec]).1, ?_, ?_⟩
  · exact (((c4_menu_export_gating [c4rec]).2.2 c4rec).1).1 (by decide)
  · exact (((c4_menu_export_gating [c4rec]).2.2 c4rec).2.2.2.1).2 (by decide)

/-- C10: a record whose show_in_shop field is present but absent-valued
(None after a field-level parse failure) is skipped entirely by both the
menu export and the item export, exactly like show_in_shop == 0. -/
theorem c10_absent_show_skipped (pre post : List Record) (r : Record)
    (h : r.data.lookup "show_in_shop" = some Value.vNone) :
    show_gate r = false
    ∧ export_sql_menu (pre ++ r :: post) = export_sql_menu (pre ++ post)
    ∧ export_sql_item (pre ++ r :: post) = export_sql_item (pre ++ post) := by
  have hg : show_gate r = false := by
    unfold show_gate dget
    rw [h]
    rfl
  refine ⟨hg, ?_, ?_⟩
  · simp [export_sql_menu, List.filterMap_append, List.filterMap_cons, hg]
  · induction pre with
    | nil =>
      simp only [List.nil_append]
      conv_lhs => rw [export_sql_item]
      rw [hg]
      rfl
    | cons p pre ih =>
      simp only [List.cons_append]
      unfold export_sql_item
      rw [ih]

/-- C10 (witness): both exports of [shown-record, absent-flag-record] equal
the exports of [shown-record] alone. -/
theorem c10_witness :
    show_gate c10rec = false
    ∧ export_sql_menu ([c4rec] ++ c10rec :: []) = export_sql_menu ([c4rec] ++ [])
    ∧ export_sql_item ([c4rec] ++ c10rec :: []) = export_sql_item ([c4rec] ++ []) :=
  c10_absent_show_skipped [c4rec] [] c10rec (by decide)

/-! ## Save atomicity -/

/-- C6: the save re-encoding phase is atomic with respect to the target
file: an out-of-range offset makes the single field write fail, any failed
field write makes the whole record loop fail (later records are not
processed), on failure no bytes are written to the target (save_file is
none), and only after every present field of every record has re-encoded
successfully is the full buffer written in one operation. -/
theorem c6_save_atomicity (recs : List Record) (b : Buf) :
    (∀ e, reencodeRecords recs b = .error e → save_file recs b = none)
    ∧ (∀ b2, reencodeRecords recs b = .ok b2 → save_file recs b = some b2)
    ∧ (∀ (b2 : Buf) (oo : Nat) (f : FieldSpec) (v : Value), b2.len ≤ oo →
        ∃ e, writeField b2 oo f v = .error e)
    ∧ (∀ rs1 rs2 : List Record, ∀ b2 : Buf, reencodeRecords (rs1 ++ rs2) b2
        = (reencodeRecords rs1 b2).bind fun b3 => reencodeRecords rs2 b3) := by
  refine ⟨?_, ?_, ?_, ?_⟩
  · intro e h
    unfold save_file
    rw [h]
    rfl
  · intro b2 h
    unfold save_file
    rw [h]
    rfl
  · intro b2 oo f v h
    refine ⟨"IndexError: offset exceeds buffer length", ?_⟩
    unfold writeField
    rw [if_pos h]
  · intro rs1 rs2
    induction rs1 with
    | nil => intro b2; rfl
    | cons r rs ih =>
      intro b2
      simp only [List.cons_append]
      conv_lhs => rw [reencodeRecords]
      conv_rhs => rw [reencodeRecords]
      cases hrr : reencodeRecord b2 r with
      | error e => rfl
      | ok b3 =>
        dsimp only
        exact ih b3

/-- C6 (witness): the atomicity statement at concrete inputs — a field
write at offset 700 into a 4-byte buffer fails, and the empty save writes
the untouched buffer whole. -/
theorem c6_witness :
    (∃ e, writeField ⟨4, fun _ => 0⟩ 700 ⟨"avatar_code", 0, .u32, 0⟩ (.vInt 1) = .error e)
    ∧ save_file [] ⟨4, fun _ => 0⟩ = some ⟨4, fun _ => 0⟩ := by
  refine ⟨?_, ?_⟩
  · exact (c6_save_atomicity [] ⟨4, fun _ => 0⟩).2.2.1 ⟨4, fun _ => 0⟩ 700 _ _ (by decide)
  · exact (c6_save_atomicity [] ⟨4, fun _ => 0⟩).2.1 ⟨4, fun _ => 0⟩ rfl

/-! ## Field-set rejection on the Ex-item variant -/

/-- C8: on an Ex-item record, setting any Normal-only stat field through the
core field-set operation is rejected with a domain error and the field is
not applied (no updated record is ever returned). -/
theorem c8_exitem_stat_rejected (rec : Record) (name : String) (v : Value)
    (hty : rec.type = "Ex-item") (hmem : name ∈ normalOnlyStats) :
    setField rec name v = .error (.domainError "field not available on the Ex-item variant")
    ∧ ∀ rec2, setField rec name v ≠ .ok rec2 := by
  have h : setField rec name v
      = .error (.domainError "field not available on the Ex-item variant") := by
    unfold setField
    rw [if_pos ⟨hty, hmem⟩]
  refine ⟨h, fun rec2 hEq => ?_⟩
  rw [h] at hEq
  exact Except.noConfusion hEq

/-- C8 (witness): rejecting an attack set on a concrete Ex-item record. -/
theorem c8_witness :
    setField ⟨0, "Ex-item", 4, []⟩ "attack" (.vInt 5)
        = .error (.domainError "field not available on the Ex-item variant")
    ∧ ∀ rec2, setField ⟨0, "Ex-item", 4, []⟩ "attack" (.vInt 5) ≠ .ok rec2 :=
  c8_exitem_stat_rejected ⟨0, "Ex-item", 4, []⟩ "attack" (.vInt 5) rfl (by decide)

/-! ## Fixed-width strings -/

theorem getD_replicate_zero (m j : Nat) : (List.replicate m (0 : Nat)).getD j 0 = 0 := by
  rw [List.getD_eq_getElem?_getD]
  simp

/-- C9 (counterexample): the claim fails for strings containing a NUL byte —
the 3-byte string consisting of the bytes 97, 0, 98 fits the 19-byte name
field but reads back as the single byte 97, because read_str cuts at the
first zero byte. -/
theorem c9_counterexample :
    ([97, 0, 98] : List Nat).length ≤ 19
    ∧ read_str (write_str c9buf 16 19 [97, 0, 98]) 16 19 = [97]
    ∧ read_str (write_str c9buf 16 19 [97, 0, 98]) 16 19 ≠ [97, 0, 98] := by
  decide

/-- C9 (amended): write_str always stores exactly `length` bytes — the
encoding truncated to at most `length` bytes and zero-padded — clearing any
prior content in the window and leaving the rest of the buffer and its
length unchanged; all bytes after the stored text up to the field width are
zero; and for NUL-free strings the field round-trips: an encoding of at
most `length` bytes reads back exactly, a longer one reads back as its
first `length` bytes. -/
theorem c9_fixed_string (b : Buf) (off L : Nat) (bs : List Nat)
    (hin : off + L ≤ b.len) :
    ((write_str b off L bs).len = b.len)
    ∧ (∀ i, i < off ∨ off + L ≤ i → (write_str b off L bs).byte i = b.byte i)
    ∧ (∀ i, off ≤ i → i < off + L →
        (write_str b off L bs).byte i
          = (bs.take L ++ List.replicate (L - (bs.take L).length) 0).getD (i - off) 0)
    ∧ (∀ i, off + min L bs.length ≤ i → i < off + L → (write_str b off L bs).byte i = 0)
    ∧ ((∀ x ∈ bs, x ≠ 0) → bs.length ≤ L → read_str (write_str b off L bs) off L = bs)
    ∧ ((∀ x ∈ bs, x ≠ 0) → L ≤ bs.length → read_str (write_str b off L bs) off L = bs.take L) := by
  have hlenc : (bs.take L ++ List.replicate (L - (bs.take L).length) 0).length = L := by
    simp only [List.length_append, List.length_take, List.length_replicate]
    omega
  have htklen : (bs.take L).length = min L bs.length := List.length_take L bs
  refine ⟨?_, ?_, ?_, ?_, ?_, ?_⟩
  · unfold write_str
    exact setRange_len_of_le b off _ (by rw [hlenc]; omega)
  · intro i hi
    unfold write_str
    exact setRange_byte_outside b off _ i (by rw [hlenc]; omega)
  · intro i h1 h2
    unfold write_str
    exact setRange_byte_inside b off _ i h1 (by rw [hlenc]; omega)
  · intro i h1 h2
    unfold write_str
    rw [setRange_byte_inside b off _ i (by omega) (by rw [hlenc]; omega)]
    rw [List.getD_append_right _ _ _ _ (by rw [htklen]; omega)]
    exact getD_replicate_zero _ _
  · intro hnz hle
    have htake : bs.take L = bs := List.take_of_length_le hle
    unfold write_str read_str
    have hsl := pySlice_setRange b off
      (bs.take L ++ List.replicate (L - (bs.take L).length) 0) (by rw [hlenc]; omega)
    rw [hlenc] at hsl
    rw [hsl, htake]
    exact takeWhile_append_zeros bs _ hnz
  · intro hnz hge
    have hpad : L - (bs.take L).length = 0 := by
      rw [htklen]
      omega
    unfold write_str read_str
    have hsl := pySlice_setRange b off
      (bs.take L ++ List.replicate (L - (bs.take L).length) 0) (by rw [hlenc]; omega)
    rw [hlenc] at hsl
    rw [hsl, hpad]
    have := takeWhile_append_zeros (bs.take L) 0 (fun x hx => hnz x (List.mem_of_mem_take hx))
    simpa using this

/-- C9 (witness): the amended statement applied to writing the 5-byte
NUL-free string with bytes 72 101 108 108 111 into the 19-byte name window of a concrete buffer
full of nonzero bytes. -/
theorem c9_witness :
    (write_str c9buf 16 19 [72, 101, 108, 108, 111]).len = 648
    ∧ read_str (write_str c9buf 16 19 [72, 101, 108, 108, 111]) 16 19
        = [72, 101, 108, 108, 111]
    ∧ (write_str c9buf 16 19 [72, 101, 108, 108, 111]).byte 30 = 0
    ∧ (write_str c9buf 16 19 [72, 101, 108, 108, 111]).byte 40 = c9buf.byte 40 := by
  obtain ⟨h1, h2, h3, h4, h5, h6⟩ :=
    c9_fixed_string c9buf 16 19 [72, 101, 108, 108, 111] (by decide)
  exact ⟨h1, h5 (by decide) (by decide), h4 30 (by decide) (by decide),
         h2 40 (by decide)⟩

/-! ## Exactness lemmas for the binary64 model -/

theorem log2p_le (fuel : Nat) : ∀ n k : Nat, n < 2 ^ (k + 1) → log2p fuel n ≤ k := by
  induction fuel with
  | zero =>
    intro n k _
    exact Nat.zero_le k
  | succ fuel ih =>
    intro n k h
    unfold log2p
    split_ifs with h1
    · exact Nat.zero_le k
    · rcases k with _ | k'
      · exfalso
        norm_num at h
        omega
      · have hstep : n / 2 < 2 ^ (k' + 1) := by
          have h2 : 2 ^ (k' + 1 + 1) = 2 ^ (k' + 1) * 2 := by ring
          rw [h2] at h
          omega
        exact Nat.succ_le_succ (ih (n / 2) k' hstep)

theorem rneFrac_exact (b c : Int) (hb : 0 < b) : rneFrac (b * c) b = c := by
  unfold rneFrac
  rw [Int.mul_fdiv_cancel_left c (by omega)]
  dsimp only
  have hr : b * c - c * b = 0 := by ring
  rw [hr]
  rw [if_pos (by omega)]

/-- The float computation of the refund is exact on every price that is a
multiple of 100: both roundings land on exactly representable values. -/
theorem pyPreco_mul_100 (k : Nat) (hkpos : 0 < k) (hk : k ≤ 42949672) :
    pyPreco (100 * (k : Int)) = 60 * (k : Int) := by
  have hk0' : (0 : Int) < (k : Int) := by exact_mod_cast hkpos
  have hp0 : (0 : Int) < 100 * (k : Int) := by positivity
  have hnat_abs : (100 * (k : Int)).natAbs = 100 * k := by
    simp [Int.natAbs_mul]
  have hdivexact : (1024 * (100 * k)) / 100 = 1024 * k := by
    have h : 1024 * (100 * k) = 100 * (1024 * k) := by ring
    rw [h, Nat.mul_div_cancel_left _ (by norm_num)]
  have hdlog : dlog2 (100 * (k : Int)) 100 = (log2p 100 (1024 * k) : Int) - 10 := by
    unfold dlog2
    rw [hnat_abs, hdivexact]
  set L := log2p 100 (1024 * k) with hLdef
  have hLle : L ≤ 35 := by
    apply log2p_le 100 (1024 * k) 35
    have h36 : (2 : Nat) ^ (35 + 1) = 68719476736 := by norm_num
    rw [h36]
    omega
  set s := 62 - L with hsdef
  have hs27 : 27 ≤ s := by omega
  have hts : (L : Int) - 10 - 52 = -(s : Int) := by omega
  have h1 : roundFD (100 * (k : Int)) 100 = ((k : Int) * 2 ^ s, -(s : Int)) := by
    unfold roundFD
    rw [if_neg (by omega)]
    dsimp only
    rw [hdlog, hts]
    rw [if_neg (by omega)]
    have htn : (-(-(s : Int))).toNat = s := by omega
    rw [htn]
    have hcast100 : ((100 : Nat) : Int) = (100 : Int) := by norm_cast
    rw [hcast100]
    have harg : 100 * (k : Int) * 2 ^ s = (100 : Int) * ((k : Int) * 2 ^ s) := by ring
    rw [harg, rneFrac_exact 100 _ (by norm_num)]
  unfold pyPreco
  rw [h1]
  dsimp only
  have hncast : (60 : Int) * ((k : Int) * 2 ^ s) = ((60 * k * 2 ^ s : Nat) : Int) := by
    push_cast
    ring
  have hn0 : ¬((60 : Int) * ((k : Int) * 2 ^ s) = 0) := by positivity
  have hnabs : ((60 : Int) * ((k : Int) * 2 ^ s)).natAbs = 60 * k * 2 ^ s := by
    rw [hncast]
    exact Int.natAbs_ofNat _
  set M := log2p 100 (60 * k * 2 ^ s) with hMdef
  have hMle : M ≤ 31 + s := by
    apply log2p_le 100 _ (31 + s)
    have h60k : 60 * k < 2 ^ 32 := by
      have h32 : (2 : Nat) ^ 32 = 4294967296 := by norm_num
      rw [h32]
      omega
    calc 60 * k * 2 ^ s < 2 ^ 32 * 2 ^ s :=
          (Nat.mul_lt_mul_right (Nat.pos_pow_of_pos s (by norm_num))).mpr h60k
      _ = 2 ^ (31 + s + 1) := by
          rw [← pow_add]
          congr 1
          omega
  have hMs52 : M ≤ s + 52 := by omega
  have hpow_ne : ((2 : Int) ^ (s + 52 - M)) ≠ 0 := by positivity
  have h2 : roundFDDyadic ((60 : Int) * ((k : Int) * 2 ^ s)) (-(s : Int))
      = (60 * (k : Int) * 2 ^ (s + 52 - M), (M : Int) + -(s : Int) - 52) := by
    unfold roundFDDyadic
    rw [if_neg hn0]
    dsimp only
    rw [hnabs]
    have htd : -(s : Int) - ((M : Int) + -(s : Int) - 52) = 52 - (M : Int) := by ring
    rw [htd]
    rcases le_or_lt M 52 with hM52 | hM52
    · rw [if_pos (by omega)]
      have htn : ((52 : Int) - (M : Int)).toNat = 52 - M := by omega
      rw [htn]
      have hm : (60 : Int) * ((k : Int) * 2 ^ s) * 2 ^ (52 - M)
          = 60 * (k : Int) * 2 ^ (s + 52 - M) := by
        have hpw : (2 : Int) ^ s * 2 ^ (52 - M) = 2 ^ (s + 52 - M) := by
          rw [← pow_add]
          congr 1
          omega
        calc (60 : Int) * ((k : Int) * 2 ^ s) * 2 ^ (52 - M)
            = 60 * (k : Int) * ((2 : Int) ^ s * 2 ^ (52 - M)) := by ring
          _ = 60 * (k : Int) * 2 ^ (s + 52 - M) := by rw [hpw]
      rw [hm]
    · rw [if_neg (by omega)]
      have htn : (-(52 - (M : Int))).toNat = M - 52 := by omega
      rw [htn]
      have hn : (60 : Int) * ((k : Int) * 2 ^ s)
          = (2 : Int) ^ (M - 52) * (60 * (k : Int) * 2 ^ (s + 52 - M)) := by
        have hpw : (2 : Int) ^ (M - 52) * 2 ^ (s + 52 - M) = 2 ^ s := by
          rw [← pow_add]
          congr 1
          omega
        calc (60 : Int) * ((k : Int) * 2 ^ s)
            = 60 * (k : Int) * ((2 : Int) ^ (M - 52) * 2 ^ (s + 52 - M)) := by
              rw [hpw]
              ring
          _ = (2 : Int) ^ (M - 52) * (60 * (k : Int) * 2 ^ (s + 52 - M)) := by ring
      rw [hn, rneFrac_exact _ _ (by positivity)]
  rw [h2]
  unfold floorDyadic
  dsimp only
  rw [if_neg (by omega)]
  have htn : (-((M : Int) + -(s : Int) - 52)).toNat = s + 52 - M := by omega
  rw [htn]
  have := Int.mul_fdiv_cancel (60 * (k : Int)) hpow_ne
  rw [this]

/-- Every line the item export emits carries a single refund repeated into
its four refund columns. -/
theorem export_item_lines_refunds (recs : List Record) :
    ∀ lines, export_sql_item recs = .ok lines →
      ∀ l ∈ lines, l.refund_c = l.refund_g ∧ l.refund_g = l.refund_t ∧ l.refund_t = l.refund_e := by
  induction recs with
  | nil =>
    intro lines h l hl
    unfold export_sql_item at h
    rw [← Except.ok.inj h] at hl
    simp at hl
  | cons r rs ih =>
    intro lines h l hl
    unfold export_sql_item at h
    by_cases hg : show_gate r
    · rw [if_pos hg] at h
      cases hir : itemRefund r with
      | error e =>
        rw [hir] at h
        exact Except.noConfusion h
      | ok pr =>
        rw [hir] at h
        dsimp only at h
        cases hrs : export_sql_item rs with
        | error e =>
          rw [hrs] at h
          exact Except.noConfusion h
        | ok ls =>
          rw [hrs] at h
          dsimp only at h
          rw [← Except.ok.inj h] at hl
          rcases List.mem_cons.mp hl with hhead | htail
          · subst hhead
            exact ⟨rfl, rfl, rfl⟩
          · exact ih ls hrs l htail
    · rw [if_neg hg] at h
      exact ih lines h l hl

/-- C5 (counterexample): the refund is not the exact integer
floor(p * 60 / 100) for every unsigned 32-bit price: at
price_eternal_gold = 205 the float computation floor((205 / 100) * 60)
yields 122, while the exact value is 123. -/
theorem c5_counterexample :
    export_sql_item [c5rec]
      = .ok [{ no := .vInt 1, refund_c := 122, refund_g := 122, refund_t := 122,
               refund_e := 122 }]
    ∧ (205 * 60) / 100 = (123 : Int)
    ∧ (122 : Int) ≠ 123 := by
  decide

/-- C5 (amended): every emitted item line repeats one refund into all four
refund columns, and that refund is the float computation
floor((p / 100) * 60) applied to the record's stored eternal gold price;
the float refund agrees with the exact floor(p * 60 / 100) at every price
that is a multiple of 100 in the u32 range (in particular 1000 yields 600)
and at 999 (yielding 599), but not at every u32 value. -/
theorem c5_item_refund_amended (recs : List Record) :
    (∀ lines, export_sql_item recs = .ok lines →
      ∀ l ∈ lines, l.refund_c = l.refund_g ∧ l.refund_g = l.refund_t ∧ l.refund_t = l.refund_e)
    ∧ (∀ r : Record, ∀ p : Int, dget r.data "price_eternal_gold" (.vInt 0) = .vInt p →
        itemRefund r = .ok (pyPreco p))
    ∧ (∀ k : Nat, 0 < k → k ≤ 42949672 → pyPreco (100 * (k : Int)) = 60 * (k : Int))
    ∧ pyPreco 0 = 0 ∧ pyPreco 999 = 599 ∧ pyPreco 1000 = 600 := by
  refine ⟨export_item_lines_refunds recs, ?_, ?_, by decide, by decide, by decide⟩
  · intro r p hp
    unfold itemRefund
    rw [hp]
  · intro k hpos hle
    exact pyPreco_mul_100 k hpos hle

/-- C5 (witness): the amended statement applied at concrete prices 1000,
205 and 999. -/
theorem c5_witness :
    pyPreco (100 * (10 : Int)) = 60 * (10 : Int)
    ∧ itemRefund c5rec = .ok (pyPreco 205)
    ∧ pyPreco 999 = 599 := by
  refine ⟨?_, ?_, (c5_item_refund_amended []).2.2.2.2.1⟩
  · have h10 : ((10 : Nat) : Int) = (10 : Int) := by norm_cast
    have := (c5_item_refund_amended []).2.2.1 10 (by decide) (by decide)
    rw [h10] at this
    exact this
  · exact (c5_item_refund_amended []).2.1 c5rec 205 (by decide)
